import Mathlib

/-!
Verification of the google_calendar_gym backend core: the event-propagation
service (`app/services/event_service.py`), the ACL evaluator
(`app/services/acl_service.py`), the reminder resolution logic
(`app/services/reminder_service.py`) and the recurrence expander
(`app/utils/recurrence.py`), over a shallow embedding of the SQLAlchemy
data model (`app/models/models.py`).

Modelling conventions:
* UUIDs are modelled as `Nat`, drawn from a per-store counter `DB.nextId`
  (uuid4 freshness becomes counter freshness).  The iCalUID string
  `"<uuid4>@calendar.app"` is likewise modelled by the fresh counter value
  (the spec notes the format is illustrative, not contractual).
* Datetimes are modelled as `Int` (seconds); `timedelta(days=1)` is 86400.
* A SQLAlchemy session is modelled as a pair of stores: the `committed`
  snapshot and the `working` state containing pending (flushed but
  uncommitted) changes.  `db.add` appends to `working`; `db.flush` of an
  Event insert checks the unique index `idx_calendar_icaluid` on
  `(calendar_id, iCalUID)` (models.py) and fails on violation (SQL NULLs
  never conflict, hence only rows with a non-null iCalUID collide);
  `db.commit` replaces `committed` by `working`; an error rolls `working`
  back to `committed`.
* Python `dict.get(k, d)` on optional payload entries is `Option.getD`;
  `query(...).first()` is `List.find?`.
* Timestamps inside the JSON `default_reminders` are carried already
  parsed; `recurrence` is carried as an opaque `Option (List String)`
  where the event-service only copies it verbatim.
-/

namespace CalendarGym

/-- Calendar sharing roles (models.py `CalendarRole`). -/
inductive CalendarRole where
  | owner
  | writer
  | reader
  | freeBusyReader
deriving DecidableEq, Repr

/-- Reminder delivery methods (models.py `ReminderMethod`). -/
inductive ReminderMethod where
  | popup
  | email
deriving DecidableEq, Repr

/-- Event status (models.py `EventStatus`). -/
inductive EventStatus where
  | confirmed
  | tentative
  | cancelled
deriving DecidableEq, Repr

/-- Attendee response status (models.py `AttendeeResponseStatus`). -/
inductive AttendeeResponseStatus where
  | needsAction
  | declined
  | tentative
  | accepted
deriving DecidableEq, Repr

/-- A row of the `users` table. -/
structure User where
  id : Nat
  email : String
  name : Option String
deriving DecidableEq, Repr

/-- A row of the `calendars` table. -/
structure Calendar where
  id : Nat
  title : String
  timezone : String
  owner_id : Nat
  description : Option String
deriving DecidableEq, Repr

/-- One entry of the JSON `default_reminders` array of a
`CalendarListEntry`: `{"method": ..., "minutes": ...}`, both keys
optional (read with `.get` defaults in reminder_service.py). -/
structure DefaultReminder where
  method : Option ReminderMethod
  minutes : Option Int
deriving DecidableEq, Repr

/-- A row of the `calendar_list_entries` table. -/
structure CalendarListEntry where
  user_id : Nat
  calendar_id : Nat
  default_reminders : Option (List DefaultReminder)
  is_primary : Bool
deriving DecidableEq, Repr

/-- A row of the `events` table (the columns touched by the services;
`end` is a Lean keyword, rendered `end_`). -/
structure Event where
  id : Nat
  calendar_id : Nat
  summary : String
  description : Option String
  start : Int
  end_ : Int
  is_all_day : Bool
  location : Option String
  status : EventStatus
  recurrence : Option (List String)
  iCalUID : Option Nat
  created_at : Int
deriving DecidableEq, Repr

/-- A row of the `event_attendees` table. -/
structure EventAttendee where
  event_id : Nat
  email : String
  display_name : String
  response_status : AttendeeResponseStatus
  is_organizer : Bool
  is_optional : Bool
deriving DecidableEq, Repr

/-- A row of the `calendar_acl` table. -/
structure CalendarACL where
  calendar_id : Nat
  grantee : String
  role : CalendarRole
deriving DecidableEq, Repr

/-- A row of the `reminders` table. -/
structure Reminder where
  event_id : Nat
  method : ReminderMethod
  minutes_before : Int
deriving DecidableEq, Repr

/-- The relational store: one list per table, plus the id counter
standing in for uuid4 generation. -/
structure DB where
  users : List User
  calendars : List Calendar
  calendar_list_entries : List CalendarListEntry
  events : List Event
  event_attendees : List EventAttendee
  acl : List CalendarACL
  reminders : List Reminder
  nextId : Nat
deriving DecidableEq, Repr

/-- The empty store. -/
def DB.empty : DB :=
  { users := [], calendars := [], calendar_list_entries := [], events := []
    event_attendees := [], acl := [], reminders := [], nextId := 0 }

/-! ## ACL service (app/services/acl_service.py) -/

/-- `ROLE_HIERARCHY` lookup (`get_role_level`); every role is in the
dict, so the `.get(role, 0)` default is unreachable. -/
def get_role_level (role : CalendarRole) : Nat :=
  match role with
  | .owner => 4
  | .writer => 3
  | .reader => 2
  | .freeBusyReader => 1

/-- `check_permission(db, user_id, calendar_id, required_role)`. -/
def check_permission (db : DB) (user_id calendar_id : Nat)
    (required_role : CalendarRole) : Bool :=
  match db.calendars.find? (fun c => c.id == calendar_id) with
  | none => false
  | some calendar =>
    if calendar.owner_id == user_id then
      true
    else
      match db.users.find? (fun u => u.id == user_id) with
      | none => false
      | some user =>
        match db.acl.find? (fun a =>
            a.calendar_id == calendar_id && a.grantee == user.email) with
        | none => false
        | some acl_entry =>
          get_role_level acl_entry.role ≥ get_role_level required_role

/-- `get_user_role(db, user_id, calendar_id)`: the resolved role
(`owner` for the calendar owner, else the matching ACL row's role,
else `None`). -/
def get_user_role (db : DB) (user_id calendar_id : Nat) :
    Option CalendarRole :=
  match db.calendars.find? (fun c => c.id == calendar_id) with
  | none => none
  | some calendar =>
    if calendar.owner_id == user_id then
      some .owner
    else
      match db.users.find? (fun u => u.id == user_id) with
      | none => none
      | some user =>
        match db.acl.find? (fun a =>
            a.calendar_id == calendar_id && a.grantee == user.email) with
        | none => none
        | some acl_entry => some acl_entry.role

/-! ## Reminder resolution (app/services/reminder_service.py) -/

/-- The `event.reminders` relationship: the event's own Reminder rows. -/
def eventReminderRows (db : DB) (event : Event) : List Reminder :=
  db.reminders.filter (fun r => r.event_id == event.id)

/-- `get_event_reminders(db, event)`: event-level reminders if any exist,
else the calendar list entry's `default_reminders` for
`(calendar_id, calendar.owner_id)` (Python truthiness: a missing or
empty JSON list falls through to no reminders). -/
def get_event_reminders (db : DB) (event : Event) :
    List (ReminderMethod × Int) :=
  let event_reminders := eventReminderRows db event
  if event_reminders.length > 0 then
    event_reminders.map (fun r => (r.method, r.minutes_before))
  else
    match db.calendars.find? (fun c => c.id == event.calendar_id) with
    | none => []
    | some calendar =>
      match db.calendar_list_entries.find? (fun en =>
          en.calendar_id == calendar.id && en.user_id == calendar.owner_id) with
      | none => []
      | some entry =>
        match entry.default_reminders with
        | none => []
        | some ds =>
          if ds.isEmpty then []
          else ds.map (fun d => (d.method.getD .popup, d.minutes.getD 30))

/-! ## Event service (app/services/event_service.py) -/

/-- `generate_ical_uid`: a fresh identity from the store's uuid counter. -/
def generate_ical_uid (db : DB) : Nat × DB :=
  (db.nextId, { db with nextId := db.nextId + 1 })

/-- `email.split("@")[0]`: the local part of an email address. -/
def localPart (email : String) : String :=
  (email.splitOn "@").headD ""

/-- One element of `payload["attendees"]`: a dict with required `email`
and optional `display_name` / `is_optional`. -/
structure AttendeeInput where
  email : String
  display_name : Option String
  is_optional : Option Bool
deriving DecidableEq, Repr

/-- The `create_event` payload (summary/start/end required per the
documented contract; the rest read with `.get` defaults). -/
structure Payload where
  summary : String
  description : Option String
  start : Int
  end_ : Int
  location : Option String
  status : Option EventStatus
  is_all_day : Option Bool
  recurrence : Option (List String)
  attendees : List AttendeeInput
deriving DecidableEq, Repr

/-- One entry of the `all_attendees` list built by `create_event`. -/
structure AttendeeData where
  email : String
  display_name : String
  is_organizer : Bool
  is_optional : Bool
  response_status : AttendeeResponseStatus
deriving DecidableEq, Repr

/-- The full roster `create_event` builds: the organizer (forced
`is_organizer`, accepted) followed by the payload attendees in order
(forced non-organizer, needsAction, display name defaulting to the
email's local part, `is_optional` defaulting to false). -/
def mkAllAttendees (organizer_email : String)
    (attendees_data : List AttendeeInput) : List AttendeeData :=
  { email := organizer_email, display_name := localPart organizer_email,
    is_organizer := true, is_optional := false,
    response_status := .accepted } ::
  attendees_data.map (fun a =>
    { email := a.email,
      display_name := a.display_name.getD (localPart a.email),
      is_organizer := false, is_optional := a.is_optional.getD false,
      response_status := .needsAction })

/-- Materialize one roster entry as an `EventAttendee` row of event `eid`. -/
def AttendeeData.toRow (a : AttendeeData) (eid : Nat) : EventAttendee :=
  { event_id := eid, email := a.email, display_name := a.display_name,
    response_status := a.response_status, is_organizer := a.is_organizer,
    is_optional := a.is_optional }

/-- Would inserting `e` violate the unique index `idx_calendar_icaluid`
on `(calendar_id, iCalUID)` (models.py)?  SQL NULLs never conflict, so
only two rows with the same non-null iCalUID in one calendar collide. -/
def eventInsertConflicts (db : DB) (e : Event) : Bool :=
  db.events.any (fun e2 =>
    e2.calendar_id == e.calendar_id &&
      match e.iCalUID, e2.iCalUID with
      | some u, some u2 => u == u2
      | _, _ => false)

/-- `db.add(event); db.flush()`: append the row, failing (IntegrityError)
when the unique index is violated. -/
def insertEvent (db : DB) (e : Event) : Option DB :=
  if eventInsertConflicts db e then none
  else some { db with events := db.events ++ [e] }

/-- A session mid-transaction: the last committed snapshot and the
working state holding pending (flushed but uncommitted) changes. -/
structure Tx where
  committed : DB
  working : DB
deriving DecidableEq, Repr

/-- `db.commit()`. -/
def Tx.commit (t : Tx) : Tx := { committed := t.working, working := t.working }

/-- `get_or_create_user_calendar(db, user_id)`: return the user's primary
calendar; when the user has none, create a calendar and a primary list
entry and `db.commit()` — note this commit happens even mid-way through
a caller such as `create_event`.  Raises when the user does not exist. -/
def get_or_create_user_calendar (t : Tx) (user_id : Nat) :
    Except String (Tx × Nat) :=
  match t.working.calendar_list_entries.find? (fun en =>
      en.user_id == user_id && en.is_primary) with
  | some entry => .ok (t, entry.calendar_id)
  | none =>
    match t.working.users.find? (fun u => u.id == user_id) with
    | none => .error "User not found"
    | some user =>
      let calendar_id := t.working.nextId
      let calendar : Calendar :=
        { id := calendar_id,
          title := (user.name.getD user.email) ++ "'s Calendar",
          timezone := "UTC", owner_id := user_id,
          description := some "Primary calendar" }
      let list_entry : CalendarListEntry :=
        { user_id := user_id, calendar_id := calendar_id,
          default_reminders := none, is_primary := true }
      let w := { t.working with
                 calendars := t.working.calendars ++ [calendar],
                 calendar_list_entries :=
                   t.working.calendar_list_entries ++ [list_entry],
                 nextId := calendar_id + 1 }
      .ok (Tx.commit { t with working := w }, calendar_id)

/-- Outcome of `create_event`: on success the committed store and the
organizer event's id; on an IntegrityError during a flush, the store as
of the most recent commit (what a rollback leaves persisted). -/
inductive CreateResult where
  | ok (db : DB) (organizer_event_id : Nat)
  | err (db : DB)
deriving DecidableEq, Repr

/-- One iteration of the copy fan-out loop of `create_event`: look the
attendee's user up by email; if unknown, skip; otherwise resolve (or
lazily create and commit) their primary calendar, insert the copy event
there — same iCalUID and content, fresh id — and attach the full roster
to the copy.  A flush failure rolls back to the last commit. -/
def copyStep (organizer_event : Event) (all_attendees : List AttendeeData)
    (t : Tx) (attendee_data : AttendeeInput) : Except DB Tx :=
  match t.working.users.find? (fun u => u.email == attendee_data.email) with
  | none => .ok t
  | some attendee_user =>
    match get_or_create_user_calendar t attendee_user.id with
    | .error _ => .error t.committed
    | .ok (t1, attendee_calendar_id) =>
      let copy_id := t1.working.nextId
      let attendee_event : Event :=
        { organizer_event with id := copy_id,
                               calendar_id := attendee_calendar_id }
      match insertEvent { t1.working with nextId := copy_id + 1 }
          attendee_event with
      | none => .error t1.committed
      | some w =>
        .ok { t1 with working :=
          { w with event_attendees :=
              w.event_attendees ++
                all_attendees.map (fun a => a.toRow copy_id) } }

/-- `create_event(db, calendar_id, organizer_email, payload)`: insert the
organizer's event with a fresh iCalUID and the full roster, then fan the
copies out to each known attendee's primary calendar, then commit. -/
def create_event (db : DB) (calendar_id : Nat) (organizer_email : String)
    (payload : Payload) : CreateResult :=
  let (ical_uid, db1) := generate_ical_uid db
  let attendees_data := payload.attendees
  let organizer_event : Event :=
    { id := db1.nextId, calendar_id := calendar_id,
      summary := payload.summary, description := payload.description,
      start := payload.start, end_ := payload.end_,
      location := payload.location, status := payload.status.getD .confirmed,
      is_all_day := payload.is_all_day.getD false,
      recurrence := payload.recurrence, iCalUID := some ical_uid,
      created_at := 0 }
  let db2 := { db1 with nextId := db1.nextId + 1 }
  match insertEvent db2 organizer_event with
  | none => .err db
  | some db3 =>
    let all_attendees := mkAllAttendees organizer_email attendees_data
    let db4 := { db3 with event_attendees :=
      (db3.event_attendees ++
        all_attendees.map (fun a => a.toRow organizer_event.id)) }
    match attendees_data.foldlM (copyStep organizer_event all_attendees)
        (Tx.mk db db4) with
    | .error rolled_back => .err rolled_back
    | .ok t => .ok (Tx.commit t).committed organizer_event.id

/-- One `key: value` entry of the `updates` dict passed to
`update_event`, one constructor per Event column of the model (the four
immutable keys included, so the exclusion check is representable). -/
inductive FieldUpdate where
  | summary (v : String)
  | description (v : Option String)
  | start (v : Int)
  | end_ (v : Int)
  | is_all_day (v : Bool)
  | location (v : Option String)
  | status (v : EventStatus)
  | recurrence (v : Option (List String))
  | id (v : Nat)
  | calendar_id (v : Nat)
  | iCalUID (v : Option Nat)
  | created_at (v : Int)
deriving DecidableEq, Repr

/-- Is the key in the exclusion list
`["id", "calendar_id", "iCalUID", "created_at"]` of `update_event`? -/
def FieldUpdate.isImmutable : FieldUpdate → Bool
  | .id _ | .calendar_id _ | .iCalUID _ | .created_at _ => true
  | _ => false

/-- `setattr(event, key, value)`. -/
def setattr (e : Event) : FieldUpdate → Event
  | .summary v => { e with summary := v }
  | .description v => { e with description := v }
  | .start v => { e with start := v }
  | .end_ v => { e with end_ := v }
  | .is_all_day v => { e with is_all_day := v }
  | .location v => { e with location := v }
  | .status v => { e with status := v }
  | .recurrence v => { e with recurrence := v }
  | .id v => { e with id := v }
  | .calendar_id v => { e with calendar_id := v }
  | .iCalUID v => { e with iCalUID := v }
  | .created_at v => { e with created_at := v }

/-- The guarded per-row update loop of `update_event`:
`for key, value in updates.items(): if hasattr(event, key) and key not
in [immutables]: setattr(event, key, value)` (every key of
`FieldUpdate` is an Event attribute, so `hasattr` holds). -/
def applyUpdates (e : Event) (updates : List FieldUpdate) : Event :=
  updates.foldl (fun e u => if u.isImmutable then e else setattr e u) e

/-- `update_event(db, event_id, updates)`: raise on a missing event or a
falsy iCalUID; otherwise apply the updates to the row and the identical
updates to every other row sharing its iCalUID, then commit. -/
def update_event (db : DB) (event_id : Nat) (updates : List FieldUpdate) :
    Except String DB :=
  match db.events.find? (fun e => e.id == event_id) with
  | none => .error "Event not found"
  | some organizer_event =>
    match organizer_event.iCalUID with
    | none => .error "Event has no iCalUID and cannot be propagated"
    | some ical_uid =>
      .ok { db with events := db.events.map (fun e =>
        if e.id == event_id then applyUpdates e updates
        else if e.iCalUID == some ical_uid && e.id != event_id then
          applyUpdates e updates
        else e) }

/-- Mutate the row a `.first()` query returned: update the first list
element satisfying `p`, leaving every other row unchanged. -/
def updateFirst (p : EventAttendee → Bool)
    (f : EventAttendee → EventAttendee) :
    List EventAttendee → List EventAttendee
  | [] => []
  | r :: rs => if p r then f r :: rs else r :: updateFirst p f rs

/-- `update_attendee_response(db, event_id, attendee_email,
response_status)`: raise on a missing event, falsy iCalUID, or missing
attendee row on that copy; otherwise set the row's status and the status
of the matching row (when present) on every other copy sharing the
iCalUID, then commit. -/
def update_attendee_response (db : DB) (event_id : Nat)
    (attendee_email : String) (response_status : AttendeeResponseStatus) :
    Except String DB :=
  match db.events.find? (fun e => e.id == event_id) with
  | none => .error "Event not found"
  | some attendee_event =>
    match attendee_event.iCalUID with
    | none => .error "Event has no iCalUID and cannot be propagated"
    | some ical_uid =>
      match db.event_attendees.find? (fun r =>
          r.event_id == event_id && r.email == attendee_email) with
      | none => .error "Attendee not found on event"
      | some _ =>
        let atts := updateFirst
          (fun r => r.event_id == event_id && r.email == attendee_email)
          (fun r => { r with response_status := response_status })
          db.event_attendees
        let all_event_copies := db.events.filter (fun e =>
          e.iCalUID == some ical_uid && e.id != event_id)
        let atts := all_event_copies.foldl (fun acc copy =>
          updateFirst
            (fun r => r.event_id == copy.id && r.email == attendee_email)
            (fun r => { r with response_status := response_status })
            acc) atts
        .ok { db with event_attendees := atts }

/-- Stores reachable from the empty store through the propagation
operations, including the persisted outcome of a failed `create_event`
(rollback to its last commit). -/
inductive Reachable : DB → Prop where
  | init : Reachable DB.empty
  | create_ok {db db' : DB} {c : Nat} {o : String} {p : Payload} {e : Nat} :
      Reachable db → create_event db c o p = .ok db' e → Reachable db'
  | create_err {db db' : DB} {c : Nat} {o : String} {p : Payload} :
      Reachable db → create_event db c o p = .err db' → Reachable db'
  | update_ok {db db' : DB} {e : Nat} {us : List FieldUpdate} :
      Reachable db → update_event db e us = .ok db' → Reachable db'
  | respond_ok {db db' : DB} {e : Nat} {a : String}
      {s : AttendeeResponseStatus} :
      Reachable db → update_attendee_response db e a s = .ok db' →
      Reachable db'

/-- The keys of the `updates` dict, i.e. the Event columns. -/
inductive EventField where
  | summary
  | description
  | start
  | end_
  | is_all_day
  | location
  | status
  | recurrence
  | id
  | calendar_id
  | iCalUID
  | created_at
deriving DecidableEq, Repr

/-- The key of one update entry. -/
def FieldUpdate.field : FieldUpdate → EventField
  | .summary _ => .summary
  | .description _ => .description
  | .start _ => .start
  | .end_ _ => .end_
  | .is_all_day _ => .is_all_day
  | .location _ => .location
  | .status _ => .status
  | .recurrence _ => .recurrence
  | .id _ => .id
  | .calendar_id _ => .calendar_id
  | .iCalUID _ => .iCalUID
  | .created_at _ => .created_at

/-- A column value, wrapped in one common type so that distinct columns
can be compared uniformly. -/
inductive FieldVal where
  | vStr (s : String)
  | vOStr (s : Option String)
  | vInt (i : Int)
  | vBool (b : Bool)
  | vStatus (s : EventStatus)
  | vRec (r : Option (List String))
  | vNat (n : Nat)
  | vONat (n : Option Nat)
deriving DecidableEq, Repr

/-- Read one column of an Event row. -/
def Event.getF (e : Event) : EventField → FieldVal
  | .summary => .vStr e.summary
  | .description => .vOStr e.description
  | .start => .vInt e.start
  | .end_ => .vInt e.end_
  | .is_all_day => .vBool e.is_all_day
  | .location => .vOStr e.location
  | .status => .vStatus e.status
  | .recurrence => .vRec e.recurrence
  | .id => .vNat e.id
  | .calendar_id => .vNat e.calendar_id
  | .iCalUID => .vONat e.iCalUID
  | .created_at => .vInt e.created_at

/-- The value carried by one update entry. -/
def FieldUpdate.value : FieldUpdate → FieldVal
  | .summary v => .vStr v
  | .description v => .vOStr v
  | .start v => .vInt v
  | .end_ v => .vInt v
  | .is_all_day v => .vBool v
  | .location v => .vOStr v
  | .status v => .vStatus v
  | .recurrence v => .vRec v
  | .id v => .vNat v
  | .calendar_id v => .vNat v
  | .iCalUID v => .vONat v
  | .created_at v => .vInt v

/-- The last non-immutable assignment to column `f` in `updates`, if
any (a dict has each key once, but the embedding of the update list is
ordered, matching `updates.items()` iteration). -/
def lastAssigned (us : List FieldUpdate) (f : EventField) :
    Option FieldVal :=
  us.foldl (fun acc fu =>
    if fu.isImmutable = false ∧ fu.field = f then some fu.value else acc)
    none

/-- Is column `f` updated (non-immutably) by `us`? -/
def assignedIn (us : List FieldUpdate) (f : EventField) : Prop :=
  ∃ fu ∈ us, fu.isImmutable = false ∧ fu.field = f

/-- Did `create_event` succeed? -/
def CreateResult.isOk : CreateResult → Bool
  | .ok _ _ => true
  | .err _ => false

/-- The store persisted after `create_event` returns or raises. -/
def CreateResult.store : CreateResult → DB
  | .ok db _ => db
  | .err db => db

/-- The organizer event id returned by a successful `create_event`. -/
def CreateResult.eventId : CreateResult → Nat
  | .ok _ e => e
  | .err _ => 0

/-- Did an update-style call succeed? -/
def exceptIsOk : Except String DB → Bool
  | .ok _ => true
  | .error _ => false

/-- The store persisted after an update-style call on `db`: its result
on success, `db` itself when the call raised before committing. -/
def resultStore (db : DB) : Except String DB → DB
  | .ok db2 => db2
  | .error _ => db

/-- Counter discipline standing in for uuid4 freshness: every id and
iCalUID already in the store is below the counter. -/
def Fresh (db : DB) : Prop :=
  (∀ e ∈ db.events, e.id < db.nextId ∧
    ∀ u, e.iCalUID = some u → u < db.nextId) ∧
  (∀ c ∈ db.calendars, c.id < db.nextId) ∧
  (∀ u ∈ db.users, u.id < db.nextId) ∧
  (∀ r ∈ db.event_attendees, r.event_id < db.nextId)

/-- The invariant of the unique index `idx_calendar_icaluid`
(models.py): no two Event rows share a calendar and a non-null
iCalUID. -/
def UniqueCalUid (db : DB) : Prop :=
  db.events.Pairwise (fun a b =>
    ¬ (a.calendar_id = b.calendar_id ∧
      ∃ u, a.iCalUID = some u ∧ b.iCalUID = some u))

/-- Loop invariant of the copy fan-out loop of `create_event` (a proof
device): after the loop has processed the attendee prefix `pre`, the
working store extends the base store `db` by the organizer event `oe`
(id `eid`, iCalUID `uid`) plus one fresh-id copy per known-user
attendee of `pre`, and the roster rows of `ro` attached to the
organizer event and to each copy. -/
def createLoopInv (db : DB) (uid eid : Nat) (oe : Event)
    (ro : List AttendeeData) (pre : List AttendeeInput) (t : Tx) :
    Prop :=
  t.working.users = db.users ∧
  eid < t.working.nextId ∧
  ∃ copies : List Event,
    t.working.events = db.events ++ oe :: copies ∧
    copies.length = (pre.filter (fun a =>
      db.users.any (fun u => u.email == a.email))).length ∧
    (∀ c ∈ copies, c.iCalUID = some uid ∧ eid < c.id ∧
      c.id < t.working.nextId) ∧
    List.Pairwise (fun a b => a.id < b.id) copies ∧
    t.working.event_attendees = db.event_attendees ++
      ro.map (fun a => a.toRow eid) ++
      copies.flatMap (fun c => ro.map (fun a => a.toRow c.id))

/-! ## Concrete stores (witness inputs) -/

/-- A store holding one logical event materialized as two copies
(organizer u0 in calendar 1, attendee u2 in calendar 9) sharing
iCalUID 3, each carrying the mirrored two-member roster. -/
def dbTwoCopies : DB :=
  { users := [⟨0, "o@x", none⟩, ⟨2, "b@x", none⟩],
    calendars := [⟨1, "c", "UTC", 0, none⟩, ⟨9, "c2", "UTC", 2, none⟩],
    calendar_list_entries := [⟨0, 1, none, true⟩, ⟨2, 9, none, true⟩],
    events :=
      [⟨4, 1, "m", none, 0, 60, false, none, .confirmed, none, some 3, 0⟩,
       ⟨5, 9, "m", none, 0, 60, false, none, .confirmed, none, some 3, 0⟩],
    event_attendees :=
      [⟨4, "o@x", "o", .accepted, true, false⟩,
       ⟨4, "b@x", "b", .needsAction, false, false⟩,
       ⟨5, "o@x", "o", .accepted, true, false⟩,
       ⟨5, "b@x", "b", .needsAction, false, false⟩],
    acl := [], reminders := [], nextId := 20 }

/-- A store with an organizer (calendar 1) and a known user "b@x" who
has a primary calendar already. -/
def dbKnownAttendee : DB :=
  { users := [⟨0, "o@x", none⟩, ⟨2, "b@x", none⟩],
    calendars := [⟨1, "c", "UTC", 0, none⟩, ⟨9, "c2", "UTC", 2, none⟩],
    calendar_list_entries := [⟨0, 1, none, true⟩, ⟨2, 9, none, true⟩],
    events := [], event_attendees := [], acl := [], reminders := [],
    nextId := 20 }

/-- A store where the known user "b@x" has no primary calendar yet, so
`create_event` must lazily create one (and commit mid-call). -/
def dbLazyCalendar : DB :=
  { users := [⟨0, "o@x", none⟩, ⟨2, "b@x", none⟩],
    calendars := [⟨1, "c", "UTC", 0, none⟩],
    calendar_list_entries := [⟨0, 1, none, true⟩],
    events := [], event_attendees := [], acl := [], reminders := [],
    nextId := 20 }

/-- A payload inviting "b@x" and the unknown "ghost@x". -/
def payloadTwo : Payload :=
  { summary := "m", description := none, start := 0, end_ := 60,
    location := none, status := none, is_all_day := none,
    recurrence := none,
    attendees := [⟨"b@x", none, none⟩, ⟨"ghost@x", some "G", some true⟩] }

/-- A payload inviting "b@x" twice (a duplicate-email attendee list). -/
def payloadDup : Payload :=
  { summary := "m", description := none, start := 0, end_ := 60,
    location := none, status := none, is_all_day := none,
    recurrence := none,
    attendees := [⟨"b@x", none, none⟩, ⟨"b@x", none, none⟩] }

/-- A store whose event 10 carries one explicit Reminder row while its
calendar's list entry also has a default reminder. -/
def dbReminderOverride : DB :=
  { users := [⟨30, "w@x", none⟩],
    calendars := [⟨20, "c", "UTC", 30, none⟩],
    calendar_list_entries :=
      [⟨30, 20, some [⟨some .email, some 45⟩], true⟩],
    events :=
      [⟨10, 20, "m", none, 1000, 2000, false, none, .confirmed, none,
        none, 0⟩],
    event_attendees := [], acl := [],
    reminders := [⟨10, .popup, 15⟩], nextId := 100 }

/-- The same store with no event-level Reminder rows. -/
def dbReminderDefaults : DB :=
  { dbReminderOverride with reminders := [] }

/-- The event row of the two reminder stores. -/
def evReminder : Event :=
  ⟨10, 20, "m", none, 1000, 2000, false, none, .confirmed, none, none, 0⟩

/-! ## Recurrence expander (app/utils/recurrence.py) -/

/-- One line of the `recurrence_field` list, classified the way the
parse loop of `expand_recurrence` classifies it after `strip()`:
* `blank` â an empty/whitespace line (skipped);
* `exdate ds` / `rdate ds` â a line with the `EXDATE:`/`RDATE:` prefix,
  carrying the timestamps `parse_exdates`/`parse_rdates` extract from
  its comma-separated tokens (unparseable tokens are silently dropped,
  so only the surviving timestamps are carried);
* `rrule occs` â any other line (with or without an `RRULE:` prefix),
  parsed by `parse_rrule_string` into a rule anchored at the event
  start; the third-party dateutil rule object is modelled by the
  chronological occurrence sequence it generates, of which
  `between(a, b, inc=True)` returns the members lying in `[a, b]`. -/
inductive RecLine where
  | blank
  | exdate (ds : List Int)
  | rdate (ds : List Int)
  | rrule (occs : List Int)
deriving DecidableEq, Repr

/-- `timedelta(days=1)` in seconds. -/
def oneDay : Int := 86400

/-- A Python `set` of timestamps is modelled as a duplicate-free list;
`s.update(iterable)` inserts each element not already present. -/
def setUpdate (s : List Int) (ds : List Int) : List Int :=
  ds.foldl (fun acc d => acc.insert d) s

/-- State of the parse loop of `expand_recurrence`: the (last) parsed
rule and the accumulated exception/additional date sets. -/
structure ParseState where
  rrule_obj : Option (List Int)
  exdates : List Int
  rdates : List Int

/-- One iteration of the parse loop: a rule line overwrites `rrule_obj`
(the last rule line wins), EXDATE/RDATE lines extend the sets. -/
def parseStep (st : ParseState) (line : RecLine) : ParseState :=
  match line with
  | .blank => st
  | .rrule occs => { st with rrule_obj := some occs }
  | .exdate ds => { st with exdates := setUpdate st.exdates ds }
  | .rdate ds => { st with rdates := setUpdate st.rdates ds }

/-- `expand_recurrence(event_start, recurrence_field, window_start,
window_end, max_instances)`: with no directives, the anchor iff it lies
in the window; otherwise the rule's raw hits over the extended window
(`Â± 1 day`, truncated to `max_instances`), plus RDATEs, minus EXDATEs
(set semantics), filtered to the inclusive window and sorted
(`sorted(...)` is Mathlib's insertion sort). -/
def expand_recurrence (event_start : Int) (recurrence_field : List RecLine)
    (window_start window_end : Int) (max_instances : Nat := 1000) :
    List Int :=
  if recurrence_field.isEmpty then
    if window_start ≤ event_start ∧ event_start ≤ window_end then
      [event_start]
    else []
  else
    let st := recurrence_field.foldl parseStep ⟨none, [], []⟩
    let occurrences : List Int :=
      match st.rrule_obj with
      | none => []
      | some occs =>
        let rule_occurrences := occs.filter (fun t =>
          decide (window_start - oneDay ≤ t ∧ t ≤ window_end + oneDay))
        setUpdate [] (rule_occurrences.take max_instances)
    let occurrences := setUpdate occurrences st.rdates
    let occurrences := occurrences.filter (fun t => !st.exdates.contains t)
    List.insertionSort (· ≤ ·)
      (occurrences.filter (fun t =>
        decide (window_start ≤ t ∧ t ≤ window_end)))

/-- Does the directive list contain a line classified as a rule? -/
def hasRuleLine (lines : List RecLine) : Bool :=
  lines.any (fun l => match l with | .rrule _ => true | _ => false)

/-- The rule the parse loop retains: the last rule line's occurrences. -/
def lastRule (lines : List RecLine) : Option (List Int) :=
  lines.foldl (fun acc l =>
    match l with | .rrule occs => some occs | _ => acc) none

/-- `RRULE_occurrences` of the spec's result formula: the raw RRULE hits
over the extended window `[window_start â 1 day, window_end + 1 day]`,
truncated to `max_instances`. -/
def RRULE_occurrences (lines : List RecLine) (window_start window_end : Int)
    (max_instances : Nat) : Finset Int :=
  match lastRule lines with
  | none => ∅
  | some occs =>
    ((occs.filter (fun t =>
        decide (window_start - oneDay ≤ t ∧ t ≤ window_end + oneDay))).take
      max_instances).toFinset

/-- `RDATE_set`: all timestamps contributed by RDATE lines. -/
def RDATE_set (lines : List RecLine) : Finset Int :=
  lines.foldl (fun acc l =>
    match l with | .rdate ds => acc ∪ ds.toFinset | _ => acc) ∅

/-- `EXDATE_set`: all timestamps contributed by EXDATE lines. -/
def EXDATE_set (lines : List RecLine) : Finset Int :=
  lines.foldl (fun acc l =>
    match l with | .exdate ds => acc ∪ ds.toFinset | _ => acc) ∅

/-! ## Theorems -/

/-- **C7**: `check_permission` returns true iff the subject's resolved
role — as `get_user_role` computes it: unconditionally `owner` when the
subject is the calendar's owner, else the role of the matching
`CalendarACL` row, and none when the calendar does not exist, the
subject does not exist, or no ACL row matches — has level at least the
required role's level under the hierarchy freeBusyReader(1) < reader(2)
< writer(3) < owner(4); in the none case there is no such role, so
`check_permission` is false for every required level (and, being a total
function, it never raises). -/
theorem check_permission_iff_resolved_level (db : DB)
    (user_id calendar_id : Nat) (required_role : CalendarRole) :
    check_permission db user_id calendar_id required_role = true ↔
      ∃ ρ, get_user_role db user_id calendar_id = some ρ ∧
        get_role_level required_role ≤ get_role_level ρ := by
  unfold check_permission get_user_role
  cases hc : db.calendars.find? (fun c => c.id == calendar_id) with
  | none => simp
  | some calendar =>
    cases ho : calendar.owner_id == user_id with
    | true =>
      simp only [ho, if_true]
      cases required_role <;> simp [get_role_level]
    | false =>
      simp only [ho, Bool.false_eq_true, if_false]
      cases hu : db.users.find? (fun u => u.id == user_id) with
      | none => simp
      | some user =>
        cases ha : db.acl.find? (fun a =>
            a.calendar_id == calendar_id && a.grantee == user.email) with
        | none => simp [ha]
        | some acl_entry =>
          simp [ha, ge_iff_le]

/-- **C8**: the effective reminder set `get_event_reminders` resolves
for an event is exactly the event's own Reminder rows when at least one
exists (full override — calendar defaults are then never consulted, so
such an event never also fires default reminders); otherwise it is the
`default_reminders` list of the `CalendarListEntry` for
`(calendar_id, calendar.owner_id)` when that entry exists and has a
non-empty defaults list; in every remaining case (unknown calendar, no
such entry, missing or empty defaults) it is empty. -/
theorem get_event_reminders_resolution (db : DB) (event : Event) :
    (eventReminderRows db event ≠ [] →
      get_event_reminders db event =
        (eventReminderRows db event).map
          (fun r => (r.method, r.minutes_before))) ∧
    (eventReminderRows db event = [] →
      ∀ calendar entry ds,
        db.calendars.find? (fun c => c.id == event.calendar_id) =
          some calendar →
        db.calendar_list_entries.find? (fun en =>
          en.calendar_id == calendar.id &&
            en.user_id == calendar.owner_id) = some entry →
        entry.default_reminders = some ds → ds ≠ [] →
        get_event_reminders db event =
          ds.map (fun d => (d.method.getD .popup, d.minutes.getD 30))) ∧
    (eventReminderRows db event = [] →
      db.calendars.find? (fun c => c.id == event.calendar_id) = none →
      get_event_reminders db event = []) ∧
    (eventReminderRows db event = [] →
      ∀ calendar,
        db.calendars.find? (fun c => c.id == event.calendar_id) =
          some calendar →
        db.calendar_list_entries.find? (fun en =>
          en.calendar_id == calendar.id &&
            en.user_id == calendar.owner_id) = none →
        get_event_reminders db event = []) ∧
    (eventReminderRows db event = [] →
      ∀ calendar entry,
        db.calendars.find? (fun c => c.id == event.calendar_id) =
          some calendar →
        db.calendar_list_entries.find? (fun en =>
          en.calendar_id == calendar.id &&
            en.user_id == calendar.owner_id) = some entry →
        (entry.default_reminders = none ∨
          entry.default_reminders = some []) →
        get_event_reminders db event = []) := by
  refine ⟨?_, ?_, ?_, ?_, ?_⟩
  · intro h
    unfold get_event_reminders
    have : (eventReminderRows db event).length > 0 :=
      List.length_pos.mpr h
    simp only [this, if_pos]
  · intro h calendar entry ds hc he hd hne
    unfold get_event_reminders
    simp [h, hc, he, hd, List.isEmpty_iff, hne]
  · intro h hc
    unfold get_event_reminders
    simp [h, hc]
  · intro h calendar hc he
    unfold get_event_reminders
    simp [h, hc, he]
  · intro h calendar entry hc he hd
    unfold get_event_reminders
    rcases hd with hd | hd <;> simp [h, hc, he, hd]

/-! ### Recurrence: the parse loop computes the spec's three sets -/

lemma EXDATE_set_foldl_init (ls : List RecLine) (s : Finset Int) :
    ls.foldl (fun acc l =>
      match l with | .exdate ds => acc ∪ ds.toFinset | _ => acc) s =
      s ∪ EXDATE_set ls := by
  induction ls generalizing s with
  | nil => simp [EXDATE_set]
  | cons l ls ih =>
    cases l with
    | exdate ds =>
      show ls.foldl _ (s ∪ ds.toFinset) = s ∪ EXDATE_set (.exdate ds :: ls)
      rw [ih]
      have h2 : EXDATE_set (.exdate ds :: ls) =
          (∅ ∪ ds.toFinset) ∪ EXDATE_set ls := by
        show ls.foldl _ (∅ ∪ ds.toFinset) = _
        rw [ih]
      rw [h2]
      simp [Finset.union_assoc]
    | blank => exact ih s
    | rdate ds => exact ih s
    | rrule occs => exact ih s

lemma RDATE_set_foldl_init (ls : List RecLine) (s : Finset Int) :
    ls.foldl (fun acc l =>
      match l with | .rdate ds => acc ∪ ds.toFinset | _ => acc) s =
      s ∪ RDATE_set ls := by
  induction ls generalizing s with
  | nil => simp [RDATE_set]
  | cons l ls ih =>
    cases l with
    | rdate ds =>
      show ls.foldl _ (s ∪ ds.toFinset) = s ∪ RDATE_set (.rdate ds :: ls)
      rw [ih]
      have h2 : RDATE_set (.rdate ds :: ls) =
          (∅ ∪ ds.toFinset) ∪ RDATE_set ls := by
        show ls.foldl _ (∅ ∪ ds.toFinset) = _
        rw [ih]
      rw [h2]
      simp [Finset.union_assoc]
    | blank => exact ih s
    | exdate ds => exact ih s
    | rrule occs => exact ih s

lemma lastRule_foldl_init (ls : List RecLine) (a : Option (List Int)) :
    ls.foldl (fun acc l =>
      match l with | .rrule occs => some occs | _ => acc) a =
      if hasRuleLine ls then lastRule ls else a := by
  induction ls generalizing a with
  | nil => simp [hasRuleLine, lastRule]
  | cons l ls ih =>
    cases l with
    | rrule occs =>
      show ls.foldl _ (some occs) = _
      rw [ih]
      have h3 : hasRuleLine (.rrule occs :: ls) = true := by
        simp [hasRuleLine]
      have h2 : lastRule (.rrule occs :: ls) =
          if hasRuleLine ls then lastRule ls else some occs := by
        show ls.foldl _ (some occs) = _
        rw [ih]
      rw [h3, if_pos rfl, h2]
    | blank =>
      show ls.foldl _ a = _
      rw [ih]
      have h2 : lastRule (.blank :: ls) = lastRule ls := rfl
      have h3 : hasRuleLine (.blank :: ls) = hasRuleLine ls := by
        simp [hasRuleLine]
      rw [h2, h3]
    | exdate ds =>
      show ls.foldl _ a = _
      rw [ih]
      have h2 : lastRule (.exdate ds :: ls) = lastRule ls := rfl
      have h3 : hasRuleLine (.exdate ds :: ls) = hasRuleLine ls := by
        simp [hasRuleLine]
      rw [h2, h3]
    | rdate ds =>
      show ls.foldl _ a = _
      rw [ih]
      have h2 : lastRule (.rdate ds :: ls) = lastRule ls := rfl
      have h3 : hasRuleLine (.rdate ds :: ls) = hasRuleLine ls := by
        simp [hasRuleLine]
      rw [h2, h3]

lemma parse_loop_rrule (ls : List RecLine) (st : ParseState) :
    (ls.foldl parseStep st).rrule_obj =
      if hasRuleLine ls then lastRule ls else st.rrule_obj := by
  induction ls generalizing st with
  | nil => simp [hasRuleLine, lastRule]
  | cons l ls ih =>
    cases l with
    | rrule occs =>
      rw [List.foldl_cons, ih]
      have h3 : hasRuleLine (.rrule occs :: ls) = true := by
        simp [hasRuleLine]
      have h2 : lastRule (.rrule occs :: ls) =
          if hasRuleLine ls then lastRule ls else some occs := by
        show ls.foldl _ (some occs) = _
        rw [lastRule_foldl_init]
      rw [h3, if_pos rfl, h2]
      rfl
    | blank =>
      rw [List.foldl_cons, ih]
      have h2 : lastRule (.blank :: ls) = lastRule ls := rfl
      have h3 : hasRuleLine (.blank :: ls) = hasRuleLine ls := by
        simp [hasRuleLine]
      rw [h2, h3]
      rfl
    | exdate ds =>
      rw [List.foldl_cons, ih]
      have h2 : lastRule (.exdate ds :: ls) = lastRule ls := rfl
      have h3 : hasRuleLine (.exdate ds :: ls) = hasRuleLine ls := by
        simp [hasRuleLine]
      rw [h2, h3]
      rfl
    | rdate ds =>
      rw [List.foldl_cons, ih]
      have h2 : lastRule (.rdate ds :: ls) = lastRule ls := rfl
      have h3 : hasRuleLine (.rdate ds :: ls) = hasRuleLine ls := by
        simp [hasRuleLine]
      rw [h2, h3]
      rfl

lemma setUpdate_mem (s ds : List Int) (t : Int) :
    t ∈ setUpdate s ds ↔ t ∈ s ∨ t ∈ ds := by
  induction ds generalizing s with
  | nil => simp [setUpdate]
  | cons d ds ih =>
    show t ∈ setUpdate (s.insert d) ds ↔ _
    rw [ih]
    simp [List.mem_insert_iff]
    tauto

lemma setUpdate_nodup (s ds : List Int) (h : s.Nodup) :
    (setUpdate s ds).Nodup := by
  induction ds generalizing s with
  | nil => exact h
  | cons d ds ih => exact ih _ h.insert

lemma parse_loop_exdates_mem (ls : List RecLine) (st : ParseState) (t : Int) :
    t ∈ (ls.foldl parseStep st).exdates ↔
      t ∈ st.exdates ∨ t ∈ EXDATE_set ls := by
  induction ls generalizing st with
  | nil => simp [EXDATE_set]
  | cons l ls ih =>
    cases l with
    | exdate ds =>
      rw [List.foldl_cons, ih]
      have h2 : EXDATE_set (.exdate ds :: ls) =
          (∅ ∪ ds.toFinset) ∪ EXDATE_set ls := by
        show ls.foldl _ (∅ ∪ ds.toFinset) = _
        rw [EXDATE_set_foldl_init]
      rw [h2]
      show t ∈ setUpdate st.exdates ds ∨ _ ↔ _
      rw [setUpdate_mem]
      simp only [Finset.mem_union, Finset.not_mem_empty, false_or,
        List.mem_toFinset]
      tauto
    | blank => exact ih st
    | rdate ds => exact ih (parseStep st (.rdate ds))
    | rrule occs => exact ih (parseStep st (.rrule occs))

lemma parse_loop_rdates_mem (ls : List RecLine) (st : ParseState) (t : Int) :
    t ∈ (ls.foldl parseStep st).rdates ↔
      t ∈ st.rdates ∨ t ∈ RDATE_set ls := by
  induction ls generalizing st with
  | nil => simp [RDATE_set]
  | cons l ls ih =>
    cases l with
    | rdate ds =>
      rw [List.foldl_cons, ih]
      have h2 : RDATE_set (.rdate ds :: ls) =
          (∅ ∪ ds.toFinset) ∪ RDATE_set ls := by
        show ls.foldl _ (∅ ∪ ds.toFinset) = _
        rw [RDATE_set_foldl_init]
      rw [h2]
      show t ∈ setUpdate st.rdates ds ∨ _ ↔ _
      rw [setUpdate_mem]
      simp only [Finset.mem_union, Finset.not_mem_empty, false_or,
        List.mem_toFinset]
      tauto
    | blank => exact ih st
    | exdate ds => exact ih (parseStep st (.exdate ds))
    | rrule occs => exact ih (parseStep st (.rrule occs))

lemma parse_loop_rdates_nodup (ls : List RecLine) (st : ParseState)
    (h : st.rdates.Nodup) : ((ls.foldl parseStep st).rdates).Nodup := by
  induction ls generalizing st with
  | nil => exact h
  | cons l ls ih =>
    cases l with
    | rdate ds => exact ih _ (setUpdate_nodup _ _ h)
    | blank => exact ih _ h
    | exdate ds => exact ih _ h
    | rrule occs => exact ih _ h

lemma lastRule_eq_none_of_no_rule (ls : List RecLine)
    (h : hasRuleLine ls = false) : lastRule ls = none := by
  induction ls with
  | nil => rfl
  | cons l ls ih =>
    cases l with
    | rrule occs => simp [hasRuleLine] at h
    | blank =>
      have h2 : hasRuleLine ls = false := by
        simpa [hasRuleLine] using h
      exact ih h2
    | exdate ds =>
      have h2 : hasRuleLine ls = false := by
        simpa [hasRuleLine] using h
      exact ih h2
    | rdate ds =>
      have h2 : hasRuleLine ls = false := by
        simpa [hasRuleLine] using h
      exact ih h2

lemma parse_loop_rrule_lastRule (ls : List RecLine) :
    (ls.foldl parseStep ⟨none, [], []⟩).rrule_obj = lastRule ls := by
  rw [parse_loop_rrule]
  by_cases h : hasRuleLine ls = true
  · rw [if_pos h]
  · rw [if_neg h]
    have := lastRule_eq_none_of_no_rule ls (by
      cases h2 : hasRuleLine ls with
      | true => exact absurd h2 h
      | false => rfl)
    rw [this]

lemma expand_recurrence_nonempty (event_start window_start window_end : Int)
    (max_instances : Nat) (lines : List RecLine) (hne : lines ≠ []) :
    expand_recurrence event_start lines window_start window_end
        max_instances =
      (((RRULE_occurrences lines window_start window_end max_instances ∪
          RDATE_set lines) \ EXDATE_set lines).filter
        (fun t => window_start ≤ t ∧ t ≤ window_end)).sort (· ≤ ·) := by
  have h0 : lines.isEmpty = false := by
    cases lines with
    | nil => exact absurd rfl hne
    | cons a as => rfl
  unfold expand_recurrence
  rw [h0]
  simp only [Bool.false_eq_true, if_false]
  show List.insertionSort (· ≤ ·)
      ((((setUpdate (match (lines.foldl parseStep ⟨none, [], []⟩).rrule_obj with
            | none => []
            | some occs =>
              setUpdate [] ((occs.filter (fun t =>
                decide (window_start - oneDay ≤ t ∧
                  t ≤ window_end + oneDay))).take max_instances))
          (lines.foldl parseStep ⟨none, [], []⟩).rdates).filter
          (fun t => !(lines.foldl parseStep ⟨none, [], []⟩).exdates.contains t)).filter
        (fun t => decide (window_start ≤ t ∧ t ≤ window_end)))) = _
  set st0 := lines.foldl parseStep ⟨none, [], []⟩ with hst0
  set A : List Int := (match st0.rrule_obj with
    | none => []
    | some occs =>
      setUpdate [] ((occs.filter (fun t =>
        decide (window_start - oneDay ≤ t ∧
          t ≤ window_end + oneDay))).take max_instances)) with hA
  set L : List Int := (((setUpdate A st0.rdates).filter
      (fun t => !st0.exdates.contains t)).filter
    (fun t => decide (window_start ≤ t ∧ t ≤ window_end))) with hL
  have hAnodup : A.Nodup := by
    rw [hA]
    cases st0.rrule_obj with
    | none => exact List.nodup_nil
    | some occs => exact setUpdate_nodup _ _ List.nodup_nil
  have hLnodup : L.Nodup :=
    ((setUpdate_nodup _ _ hAnodup).filter _).filter _
  have hAmem : ∀ t, t ∈ A ↔
      t ∈ RRULE_occurrences lines window_start window_end max_instances := by
    intro t
    rw [hA, RRULE_occurrences, ← parse_loop_rrule_lastRule lines]
    cases st0.rrule_obj with
    | none => simp
    | some occs => simp [setUpdate_mem]
  have hLmem : ∀ t, t ∈ L ↔
      t ∈ (((RRULE_occurrences lines window_start window_end max_instances ∪
          RDATE_set lines) \ EXDATE_set lines).filter
        (fun t => window_start ≤ t ∧ t ≤ window_end)) := by
    intro t
    rw [hL]
    simp only [List.mem_filter, setUpdate_mem, Finset.mem_filter,
      Finset.mem_sdiff, Finset.mem_union, decide_eq_true_eq,
      Bool.not_eq_true']
    rw [hAmem t]
    have hrd : t ∈ st0.rdates ↔ t ∈ RDATE_set lines := by
      rw [hst0]
      have := parse_loop_rdates_mem lines ⟨none, [], []⟩ t
      simpa using this
    have hex : (st0.exdates.contains t = false) ↔ ¬ t ∈ EXDATE_set lines := by
      have hmm := parse_loop_exdates_mem lines ⟨none, [], []⟩ t
      simp only [List.not_mem_nil, false_or] at hmm
      rw [← hst0] at hmm
      rw [← hmm]
      constructor
      · intro hc hmem2
        have h2 : st0.exdates.contains t = true := List.elem_iff.mpr hmem2
        rw [h2] at hc
        exact Bool.noConfusion hc
      · intro hnm
        cases hcase : st0.exdates.contains t with
        | false => rfl
        | true => exact absurd (List.elem_iff.mp hcase) hnm
    rw [hrd, hex]
  have hperm := List.perm_insertionSort (· ≤ ·) L
  have hnodup2 : (List.insertionSort (· ≤ ·) L).Nodup :=
    hperm.nodup_iff.mpr hLnodup
  have hfin : (List.insertionSort (· ≤ ·) L).toFinset =
      (((RRULE_occurrences lines window_start window_end max_instances ∪
          RDATE_set lines) \ EXDATE_set lines).filter
        (fun t => window_start ≤ t ∧ t ≤ window_end)) := by
    rw [List.toFinset_eq_of_perm _ _ hperm]
    ext t
    rw [List.mem_toFinset, hLmem]
  rw [← hfin]
  exact ((List.toFinset_sort (· ≤ ·) hnodup2).mpr
    (List.sorted_insertionSort _ _)).symm

/-- **C6**: for every call of `expand_recurrence` on a non-empty
directive list containing a recurrence rule, the returned list equals
`(RRULE_occurrences ∪ RDATE_set) − EXDATE_set` restricted to the
inclusive window `[window_start, window_end]`, sorted ascending with
duplicates collapsed (the canonical `Finset.sort` enumeration); in
particular every returned occurrence lies within the window. -/
theorem expand_recurrence_set_algebra
    (event_start window_start window_end : Int) (max_instances : Nat)
    (lines : List RecLine) (hne : lines ≠ [])
    ( _hrule : hasRuleLine lines = true) :
    expand_recurrence event_start lines window_start window_end
        max_instances =
      (((RRULE_occurrences lines window_start window_end max_instances ∪
          RDATE_set lines) \ EXDATE_set lines).filter
        (fun t => window_start ≤ t ∧ t ≤ window_end)).sort (· ≤ ·) ∧
    ∀ t ∈ expand_recurrence event_start lines window_start window_end
        max_instances, window_start ≤ t ∧ t ≤ window_end := by
  have heq := expand_recurrence_nonempty event_start window_start window_end
    max_instances lines hne
  refine ⟨heq, ?_⟩
  intro t ht
  rw [heq, Finset.mem_sort, Finset.mem_filter] at ht
  exact ht.2

/-- Witness: the C6 theorem applied to the concrete call
`expand_recurrence 5 [RRULE [0,3,6,9,12], EXDATE [6], RDATE [4,20]]
0 10 1000`, whose value is `[0, 3, 4, 9]`. -/
theorem expand_recurrence_set_algebra_witness :
    (([RecLine.rrule [0, 3, 6, 9, 12], RecLine.exdate [6],
        RecLine.rdate [4, 20]] : List RecLine) ≠ [] ∧
      hasRuleLine [RecLine.rrule [0, 3, 6, 9, 12], RecLine.exdate [6],
        RecLine.rdate [4, 20]] = true ∧
      expand_recurrence 5 [RecLine.rrule [0, 3, 6, 9, 12],
        RecLine.exdate [6], RecLine.rdate [4, 20]] 0 10 1000 =
          [0, 3, 4, 9]) ∧
    (expand_recurrence 5 [RecLine.rrule [0, 3, 6, 9, 12],
        RecLine.exdate [6], RecLine.rdate [4, 20]] 0 10 1000 =
      (((RRULE_occurrences [RecLine.rrule [0, 3, 6, 9, 12],
            RecLine.exdate [6], RecLine.rdate [4, 20]] 0 10 1000 ∪
          RDATE_set [RecLine.rrule [0, 3, 6, 9, 12], RecLine.exdate [6],
            RecLine.rdate [4, 20]]) \
          EXDATE_set [RecLine.rrule [0, 3, 6, 9, 12], RecLine.exdate [6],
            RecLine.rdate [4, 20]]).filter
        (fun t => 0 ≤ t ∧ t ≤ 10)).sort (· ≤ ·) ∧
      ∀ t ∈ expand_recurrence 5 [RecLine.rrule [0, 3, 6, 9, 12],
        RecLine.exdate [6], RecLine.rdate [4, 20]] 0 10 1000,
        (0 : Int) ≤ t ∧ t ≤ 10) :=
  ⟨⟨by decide, by decide, by decide⟩,
    expand_recurrence_set_algebra 5 0 10 1000
      [RecLine.rrule [0, 3, 6, 9, 12], RecLine.exdate [6],
        RecLine.rdate [4, 20]] (by decide) (by decide)⟩

/-- **C10**: for a non-empty directive list with no recurrence-rule
line (only EXDATE:/RDATE:/blank lines), the anchor `event_start`
appears in the result only if it is a member of the parsed RDATE set,
not excluded by EXDATE, and lies within the window; in particular the
result can be empty even when
`window_start ≤ event_start ≤ window_end` (an EXDATE-only directive
list), unlike the empty-directive-list case, which returns the anchor. -/
theorem expand_recurrence_no_rule_anchor :
    (∀ (event_start window_start window_end : Int) (max_instances : Nat)
        (lines : List RecLine), lines ≠ [] → hasRuleLine lines = false →
      event_start ∈ expand_recurrence event_start lines window_start
        window_end max_instances →
      event_start ∈ RDATE_set lines ∧ event_start ∉ EXDATE_set lines ∧
        window_start ≤ event_start ∧ event_start ≤ window_end) ∧
    expand_recurrence 5 [RecLine.exdate [5]] 0 10 1000 = [] ∧
    ((0 : Int) ≤ 5 ∧ (5 : Int) ≤ 10) ∧
    expand_recurrence 5 [] 0 10 1000 = [5] := by
  refine ⟨?_, by decide, by decide, by decide⟩
  intro es ws we max lines hne hnorule hmem
  rw [expand_recurrence_nonempty es ws we max lines hne, Finset.mem_sort,
    Finset.mem_filter] at hmem
  obtain ⟨hmem, hw1, hw2⟩ := hmem
  rw [Finset.mem_sdiff, Finset.mem_union] at hmem
  obtain ⟨hor, hnotex⟩ := hmem
  have hrr : RRULE_occurrences lines ws we max = ∅ := by
    unfold RRULE_occurrences
    rw [lastRule_eq_none_of_no_rule lines hnorule]
  rw [hrr] at hor
  rcases hor with h | h
  · exact absurd h (Finset.not_mem_empty es)
  · exact ⟨h, hnotex, hw1, hw2⟩

/-- Witness: the C10 theorem applied to the concrete call
`expand_recurrence 5 [RDATE [5]] 0 10 1000`. -/
theorem expand_recurrence_no_rule_anchor_witness :
    (([RecLine.rdate [5]] : List RecLine) ≠ [] ∧
      hasRuleLine [RecLine.rdate [5]] = false ∧
      (5 : Int) ∈ expand_recurrence 5 [RecLine.rdate [5]] 0 10 1000) ∧
    ((5 : Int) ∈ RDATE_set [RecLine.rdate [5]] ∧
      (5 : Int) ∉ EXDATE_set [RecLine.rdate [5]] ∧
      (0 : Int) ≤ 5 ∧ (5 : Int) ≤ 10) :=
  ⟨⟨by decide, by decide, by decide⟩,
    expand_recurrence_no_rule_anchor.1 5 0 10 1000 [RecLine.rdate [5]]
      (by decide) (by decide) (by decide)⟩

/-! ### Field updates: `applyUpdates` as last-assignment semantics -/

lemma lastAssigned_foldl_init (us : List FieldUpdate) (f : EventField)
    (a : Option FieldVal) :
    us.foldl (fun acc fu =>
      if fu.isImmutable = false ∧ fu.field = f then some fu.value else acc)
      a =
      match lastAssigned us f with
      | some v => some v
      | none => a := by
  induction us generalizing a with
  | nil => rfl
  | cons fu us ih =>
    show us.foldl _
      (if fu.isImmutable = false ∧ fu.field = f then some fu.value else a) = _
    rw [ih]
    have h2 : lastAssigned (fu :: us) f =
        match lastAssigned us f with
        | some v => some v
        | none =>
          if fu.isImmutable = false ∧ fu.field = f then some fu.value
          else none := by
      show us.foldl _
        (if fu.isImmutable = false ∧ fu.field = f then some fu.value
          else none) = _
      rw [ih]
    rw [h2]
    cases lastAssigned us f with
    | some v => rfl
    | none =>
      by_cases hc : fu.isImmutable = false ∧ fu.field = f
      · rw [if_pos hc, if_pos hc]
      · rw [if_neg hc, if_neg hc]

lemma getF_setattr_self (e : Event) (fu : FieldUpdate) :
    (setattr e fu).getF fu.field = fu.value := by
  cases fu <;> rfl

lemma getF_setattr_other (e : Event) (fu : FieldUpdate) (f : EventField)
    (h : fu.field ≠ f) : (setattr e fu).getF f = e.getF f := by
  cases fu <;> cases f <;> first | rfl | exact absurd rfl h

lemma getF_applyUpdates (e : Event) (us : List FieldUpdate)
    (f : EventField) :
    (applyUpdates e us).getF f = (lastAssigned us f).getD (e.getF f) := by
  induction us generalizing e with
  | nil => rfl
  | cons fu us ih =>
    show (applyUpdates (if fu.isImmutable then e else setattr e fu) us).getF
      f = _
    rw [ih]
    have h2 : lastAssigned (fu :: us) f =
        match lastAssigned us f with
        | some v => some v
        | none =>
          if fu.isImmutable = false ∧ fu.field = f then some fu.value
          else none := by
      show us.foldl _ _ = _
      rw [lastAssigned_foldl_init]
    rw [h2]
    cases hl : lastAssigned us f with
    | some v => rfl
    | none =>
      by_cases him : fu.isImmutable
      · have hc : ¬ (fu.isImmutable = false ∧ fu.field = f) := by
          simp [him]
        rw [if_pos him, if_neg hc]
      · rw [if_neg him]
        by_cases hf : fu.field = f
        · have hc : fu.isImmutable = false ∧ fu.field = f :=
            ⟨by simpa using him, hf⟩
          rw [if_pos hc, ← hf]
          exact getF_setattr_self e fu
        · have hc : ¬ (fu.isImmutable = false ∧ fu.field = f) :=
            fun hand => hf hand.2
          rw [if_neg hc]
          exact getF_setattr_other e fu f hf

lemma lastAssigned_immutable_constructor (us : List FieldUpdate)
    (f : EventField)
    (hf : ∀ fu : FieldUpdate, fu.field = f → fu.isImmutable = true) :
    lastAssigned us f = none := by
  induction us with
  | nil => rfl
  | cons fu us ih =>
    show us.foldl _
      (if fu.isImmutable = false ∧ fu.field = f then some fu.value
        else none) = none
    have hc : ¬ (fu.isImmutable = false ∧ fu.field = f) := by
      intro hand
      rw [hf fu hand.2] at hand
      exact Bool.noConfusion hand.1
    rw [if_neg hc]
    exact ih

lemma Event.ext_getF (e1 e2 : Event)
    (h : ∀ f, e1.getF f = e2.getF f) : e1 = e2 := by
  cases e1
  cases e2
  have h1 := h .summary
  have h2 := h .description
  have h3 := h .start
  have h4 := h .end_
  have h5 := h .is_all_day
  have h6 := h .location
  have h7 := h .status
  have h8 := h .recurrence
  have h9 := h .id
  have h10 := h .calendar_id
  have h11 := h .iCalUID
  have h12 := h .created_at
  simp only [Event.getF, FieldVal.vStr.injEq, FieldVal.vOStr.injEq,
    FieldVal.vInt.injEq, FieldVal.vBool.injEq, FieldVal.vStatus.injEq,
    FieldVal.vRec.injEq, FieldVal.vNat.injEq, FieldVal.vONat.injEq]
      at h1 h2 h3 h4 h5 h6 h7 h8 h9 h10 h11 h12
  subst h1 h2 h3 h4 h5 h6 h7 h8 h9 h10 h11 h12
  rfl

lemma applyUpdates_id (e : Event) (us : List FieldUpdate) :
    (applyUpdates e us).id = e.id := by
  have h := getF_applyUpdates e us .id
  rw [lastAssigned_immutable_constructor us .id
    (fun fu hfu => by cases fu <;> simp_all [FieldUpdate.field, FieldUpdate.isImmutable])]
      at h
  exact FieldVal.vNat.inj h

lemma applyUpdates_calendar_id (e : Event) (us : List FieldUpdate) :
    (applyUpdates e us).calendar_id = e.calendar_id := by
  have h := getF_applyUpdates e us .calendar_id
  rw [lastAssigned_immutable_constructor us .calendar_id
    (fun fu hfu => by cases fu <;> simp_all [FieldUpdate.field, FieldUpdate.isImmutable])]
      at h
  exact FieldVal.vNat.inj h

lemma applyUpdates_iCalUID (e : Event) (us : List FieldUpdate) :
    (applyUpdates e us).iCalUID = e.iCalUID := by
  have h := getF_applyUpdates e us .iCalUID
  rw [lastAssigned_immutable_constructor us .iCalUID
    (fun fu hfu => by cases fu <;> simp_all [FieldUpdate.field, FieldUpdate.isImmutable])]
      at h
  exact FieldVal.vONat.inj h

lemma applyUpdates_created_at (e : Event) (us : List FieldUpdate) :
    (applyUpdates e us).created_at = e.created_at := by
  have h := getF_applyUpdates e us .created_at
  rw [lastAssigned_immutable_constructor us .created_at
    (fun fu hfu => by cases fu <;> simp_all [FieldUpdate.field, FieldUpdate.isImmutable])]
      at h
  exact FieldVal.vInt.inj h

lemma applyUpdates_idem (e : Event) (us : List FieldUpdate) :
    applyUpdates (applyUpdates e us) us = applyUpdates e us := by
  apply Event.ext_getF
  intro f
  rw [getF_applyUpdates, getF_applyUpdates]
  cases lastAssigned us f <;> rfl

lemma lastAssigned_none_of_not_mem_fields (us : List FieldUpdate)
    (f : EventField) (h : f ∉ us.map FieldUpdate.field) :
    lastAssigned us f = none := by
  induction us with
  | nil => rfl
  | cons fu us ih =>
    show us.foldl _
      (if fu.isImmutable = false ∧ fu.field = f then some fu.value
        else none) = none
    have hc : ¬ (fu.isImmutable = false ∧ fu.field = f) := by
      intro hand
      apply h
      rw [← hand.2]
      exact List.mem_map_of_mem FieldUpdate.field (List.mem_cons_self fu us)
    rw [if_neg hc]
    exact ih (fun hmem => h (List.mem_cons_of_mem _ hmem))

lemma lastAssigned_of_not_assigned (us : List FieldUpdate)
    (f : EventField) (h : ¬ assignedIn us f) : lastAssigned us f = none := by
  induction us with
  | nil => rfl
  | cons fu us ih =>
    show us.foldl _
      (if fu.isImmutable = false ∧ fu.field = f then some fu.value
        else none) = none
    have hc : ¬ (fu.isImmutable = false ∧ fu.field = f) := by
      intro hand
      exact h ⟨fu, List.mem_cons_self _ _, hand⟩
    rw [if_neg hc]
    refine ih (fun hass => ?_)
    obtain ⟨gu, hmem, hgu⟩ := hass
    exact h ⟨gu, List.mem_cons_of_mem _ hmem, hgu⟩

lemma lastAssigned_eq_of_mem (us : List FieldUpdate) (fu : FieldUpdate)
    (hmem : fu ∈ us) (him : fu.isImmutable = false)
    (hdup : (us.map FieldUpdate.field).Nodup) :
    lastAssigned us fu.field = some fu.value := by
  induction us with
  | nil => exact absurd hmem (List.not_mem_nil fu)
  | cons gu us ih =>
    rcases List.mem_cons.mp hmem with heq | htail
    · subst heq
      show us.foldl _
        (if fu.isImmutable = false ∧ fu.field = fu.field then some fu.value
          else none) = some fu.value
      rw [if_pos ⟨him, rfl⟩, lastAssigned_foldl_init]
      have hnone : lastAssigned us fu.field = none := by
        apply lastAssigned_none_of_not_mem_fields
        intro hf
        exact (List.nodup_cons.mp hdup).1 hf
      rw [hnone]
    · show us.foldl _
        (if gu.isImmutable = false ∧ gu.field = fu.field then some gu.value
          else none) = some fu.value
      rw [lastAssigned_foldl_init]
      have := ih htail (List.nodup_cons.mp hdup).2
      rw [this]

/-! ### `update_event`: C4 and C9 -/

lemma update_event_ok_form (db : DB) (event_id : Nat)
    (us : List FieldUpdate) (ev0 : Event) (uid : Nat)
    (hfind : db.events.find? (fun e => e.id == event_id) = some ev0)
    (huid : ev0.iCalUID = some uid) :
    update_event db event_id us = .ok { db with events := (db.events.map
      (fun e =>
        if e.id == event_id then applyUpdates e us
        else if e.iCalUID == some uid && e.id != event_id then
          applyUpdates e us
        else e)) } := by
  unfold update_event
  simp only [hfind, huid]

/-- **C4**: `update_event` raises when the event is absent or lacks an
iCalUID; otherwise it succeeds and applies every non-immutable update
entry — and only those (fields outside the update map, and the four
immutable fields, are untouched) — both to the addressed row and to
every other Event row sharing the same iCalUID, leaving rows of other
logical events and the whole attendee-roster table unchanged. -/
theorem update_event_spec (db : DB) (event_id : Nat)
    (us : List FieldUpdate)
    (hdup : (us.map FieldUpdate.field).Nodup) :
    (db.events.find? (fun e => e.id == event_id) = none →
      update_event db event_id us = .error "Event not found") ∧
    (∀ ev0, db.events.find? (fun e => e.id == event_id) = some ev0 →
      ev0.iCalUID = none →
      update_event db event_id us =
        .error "Event has no iCalUID and cannot be propagated") ∧
    (∀ ev0 uid, db.events.find? (fun e => e.id == event_id) = some ev0 →
      ev0.iCalUID = some uid →
      exceptIsOk (update_event db event_id us) = true ∧
      (resultStore db (update_event db event_id us)).event_attendees =
        db.event_attendees ∧
      List.Forall₂ (fun e e2 =>
        ((e.id = event_id ∨ e.iCalUID = some uid) →
          (∀ fu ∈ us, fu.isImmutable = false →
            e2.getF fu.field = fu.value) ∧
          (∀ f, ¬ assignedIn us f → e2.getF f = e.getF f)) ∧
        (¬ (e.id = event_id ∨ e.iCalUID = some uid) → e2 = e))
        db.events
        (resultStore db (update_event db event_id us)).events) := by
  refine ⟨?_, ?_, ?_⟩
  · intro h
    unfold update_event
    rw [h]
  · intro ev0 hfind hnone
    unfold update_event
    simp only [hfind, hnone]
  · intro ev0 uid hfind huid
    rw [update_event_ok_form db event_id us ev0 uid hfind huid]
    refine ⟨rfl, rfl, ?_⟩
    show List.Forall₂ _ db.events (db.events.map _)
    rw [List.forall₂_map_right_iff]
    rw [List.forall₂_same]
    intro e _hmem
    constructor
    · intro hyp
      have happ :
          (if e.id == event_id then applyUpdates e us
            else if e.iCalUID == some uid && e.id != event_id then
              applyUpdates e us
            else e) = applyUpdates e us := by
        by_cases hid : e.id = event_id
        · rw [if_pos (by simpa using hid)]
        · have h1 : (e.id == event_id) = false := by
            simpa using hid
          have h2 : e.iCalUID = some uid := by
            rcases hyp with h | h
            · exact absurd h hid
            · exact h
          rw [h1, if_neg (by simp), if_pos (by simp [h2, h1, hid])]
      rw [happ]
      constructor
      · intro fu hfu him
        rw [getF_applyUpdates, lastAssigned_eq_of_mem us fu hfu him hdup]
        rfl
      · intro f hnass
        rw [getF_applyUpdates, lastAssigned_of_not_assigned us f hnass]
        rfl
    · intro hyp
      push_neg at hyp
      obtain ⟨hid, huid2⟩ := hyp
      have h1 : (e.id == event_id) = false := by simpa using hid
      have h2 : (e.iCalUID == some uid) = false := by simpa using huid2
      rw [h1, if_neg (by simp), h2]
      simp

/-- Witness: the C4 theorem at the two-copy store, updating the
organizer copy (event 4) with a summary change. -/
theorem update_event_spec_witness :
    (([FieldUpdate.summary "z", FieldUpdate.iCalUID none].map
        FieldUpdate.field).Nodup ∧
      dbTwoCopies.events.find? (fun e => e.id == 4) =
        some ⟨4, 1, "m", none, 0, 60, false, none, .confirmed, none,
          some 3, 0⟩ ∧
      (⟨4, 1, "m", none, 0, 60, false, none, .confirmed, none, some 3, 0⟩ :
        Event).iCalUID = some 3) ∧
    (exceptIsOk (update_event dbTwoCopies 4
        [FieldUpdate.summary "z", FieldUpdate.iCalUID none]) = true ∧
      (resultStore dbTwoCopies (update_event dbTwoCopies 4
        [FieldUpdate.summary "z", FieldUpdate.iCalUID none])).event_attendees =
        dbTwoCopies.event_attendees ∧
      List.Forall₂ (fun e e2 =>
        ((e.id = 4 ∨ e.iCalUID = some 3) →
          (∀ fu ∈ [FieldUpdate.summary "z", FieldUpdate.iCalUID none],
            fu.isImmutable = false → e2.getF fu.field = fu.value) ∧
          (∀ f, ¬ assignedIn [FieldUpdate.summary "z",
              FieldUpdate.iCalUID none] f → e2.getF f = e.getF f)) ∧
        (¬ (e.id = 4 ∨ e.iCalUID = some 3) → e2 = e))
        dbTwoCopies.events
        (resultStore dbTwoCopies (update_event dbTwoCopies 4
          [FieldUpdate.summary "z", FieldUpdate.iCalUID none])).events) :=
  ⟨⟨by decide, by decide, by decide⟩,
    (update_event_spec dbTwoCopies 4
        [FieldUpdate.summary "z", FieldUpdate.iCalUID none]
        (by decide)).2.2
      ⟨4, 1, "m", none, 0, 60, false, none, .confirmed, none, some 3, 0⟩ 3
      (by decide) (by decide)⟩

lemma find?_map_id_pred (l : List Event) (g : Event → Event)
    (hgid : ∀ e, (g e).id = e.id) (eid : Nat) (ev : Event)
    (h : l.find? (fun e => e.id == eid) = some ev) :
    (l.map g).find? (fun e => e.id == eid) = some (g ev) := by
  induction l with
  | nil => exact absurd h (by simp)
  | cons a l ih =>
    rw [List.map_cons]
    cases hpa : (a.id == eid) with
    | true =>
      have ha : List.find? (fun e => e.id == eid) (a :: l) = some a :=
        List.find?_cons_of_pos l hpa
      rw [ha] at h
      have h3 : ((g a).id == eid) = true := by rw [hgid]; exact hpa
      have hb : List.find? (fun e => e.id == eid) (g a :: l.map g) =
          some (g a) := List.find?_cons_of_pos _ h3
      rw [hb, Option.some.inj h]
    | false =>
      have ha : List.find? (fun e => e.id == eid) (a :: l) =
          List.find? (fun e => e.id == eid) l :=
        List.find?_cons_of_neg l (by simp [hpa])
      rw [ha] at h
      have h3 : ¬ ((g a).id == eid) = true := by rw [hgid]; simp [hpa]
      have hb : List.find? (fun e => e.id == eid) (g a :: l.map g) =
          List.find? (fun e => e.id == eid) (l.map g) :=
        List.find?_cons_of_neg (l.map g) h3
      rw [hb]
      exact ih h

/-- **C9**: re-running the same `update_event` call on its own result
succeeds and returns that result unchanged (applying the update twice
yields the same final store as applying it once), and after the run
every Event row sharing the target's iCalUID holds exactly the updated
value for every field the map propagates. -/
theorem update_event_idempotent (db : DB) (event_id : Nat)
    (us : List FieldUpdate) (ev0 : Event) (uid : Nat)
    (hdup : (us.map FieldUpdate.field).Nodup)
    (hfind : db.events.find? (fun e => e.id == event_id) = some ev0)
    (huid : ev0.iCalUID = some uid) :
    update_event (resultStore db (update_event db event_id us)) event_id
        us = .ok (resultStore db (update_event db event_id us)) ∧
    ∀ ev ∈ (resultStore db (update_event db event_id us)).events,
      ev.iCalUID = some uid →
      ∀ fu ∈ us, fu.isImmutable = false → ev.getF fu.field = fu.value := by
  rw [update_event_ok_form db event_id us ev0 uid hfind huid]
  set g : Event → Event := fun e =>
    if e.id == event_id then applyUpdates e us
    else if e.iCalUID == some uid && e.id != event_id then applyUpdates e us
    else e with hg
  show update_event { db with events := db.events.map g } event_id us =
      .ok { db with events := db.events.map g } ∧
    ∀ ev ∈ ({ db with events := db.events.map g } : DB).events,
      ev.iCalUID = some uid →
      ∀ fu ∈ us, fu.isImmutable = false → ev.getF fu.field = fu.value
  have hgid : ∀ e, (g e).id = e.id := by
    intro e
    simp only [hg]
    by_cases h1 : (e.id == event_id) = true
    · rw [if_pos h1]; exact applyUpdates_id e us
    · rw [if_neg h1]
      by_cases h2 : (e.iCalUID == some uid && e.id != event_id) = true
      · rw [if_pos h2]; exact applyUpdates_id e us
      · rw [if_neg h2]
  have hguid : ∀ e, (g e).iCalUID = e.iCalUID := by
    intro e
    simp only [hg]
    by_cases h1 : (e.id == event_id) = true
    · rw [if_pos h1]; exact applyUpdates_iCalUID e us
    · rw [if_neg h1]
      by_cases h2 : (e.iCalUID == some uid && e.id != event_id) = true
      · rw [if_pos h2]; exact applyUpdates_iCalUID e us
      · rw [if_neg h2]
  have hgapp : ∀ e, (e.id == event_id) = true ∨
      ((e.iCalUID == some uid) = true ∧ (e.id == event_id) = false) →
      g e = applyUpdates e us := by
    intro e he
    simp only [hg]
    rcases he with h1 | ⟨h2, h1⟩
    · rw [if_pos h1]
    · have hne : ¬ e.id = event_id := beq_eq_false_iff_ne.mp h1
      rw [if_neg (by simp [h1]), if_pos (by simp [h2, h1, hne])]
  have hpred0 : (ev0.id == event_id) = true :=
    @List.find?_some Event (fun e => e.id == event_id) ev0 db.events hfind
  have hfind1 : ((db.events.map g).find? (fun e => e.id == event_id)) =
      some (g ev0) := find?_map_id_pred db.events g hgid event_id ev0 hfind
  have huid1 : (g ev0).iCalUID = some uid := by rw [hguid]; exact huid
  have hidem : ∀ e, g (g e) = g e := by
    intro e
    by_cases h1 : (e.id == event_id) = true
    · have hga : g e = applyUpdates e us := hgapp e (Or.inl h1)
      have : g (g e) = applyUpdates (g e) us := by
        apply hgapp
        left
        rw [hgid]; exact h1
      rw [this, hga, applyUpdates_idem]
    · by_cases h2 : (e.iCalUID == some uid) = true
      · have h1f : (e.id == event_id) = false := by
          cases h : (e.id == event_id) with
          | true => exact absurd h h1
          | false => rfl
        have hga : g e = applyUpdates e us := hgapp e (Or.inr ⟨h2, h1f⟩)
        have : g (g e) = applyUpdates (g e) us := by
          apply hgapp
          right
          constructor
          · rw [hguid]; exact h2
          · rw [hgid]; exact h1f
        rw [this, hga, applyUpdates_idem]
      · have h1f : (e.id == event_id) = false := by
          cases h : (e.id == event_id) with
          | true => exact absurd h h1
          | false => rfl
        have h2f : (e.iCalUID == some uid) = false := by
          cases h : (e.iCalUID == some uid) with
          | true => exact absurd h h2
          | false => rfl
        have hge : g e = e := by
          simp only [hg]
          rw [if_neg (by simp [h1f]), h2f]
          simp
        rw [hge, hge]
  have hmap2 : (db.events.map g).map g = db.events.map g := by
    rw [List.map_map]
    exact List.map_congr_left (fun e _ => hidem e)
  constructor
  · have hok := update_event_ok_form { db with events := db.events.map g }
      event_id us (g ev0) uid hfind1 huid1
    rw [hok]
    show Except.ok _ = _
    have : ({ db with events := db.events.map g } : DB).events.map g =
        db.events.map g := hmap2
    congr 1
    show { db with events := (db.events.map g).map g } =
      { db with events := db.events.map g }
    rw [hmap2]
  · intro ev hmem hevuid fu hfu him
    obtain ⟨e, hemem, hge⟩ := List.mem_map.mp hmem
    have happ : g e = applyUpdates e us := by
      by_cases h1 : (e.id == event_id) = true
      · exact hgapp e (Or.inl h1)
      · have h1f : (e.id == event_id) = false := by
          cases h : (e.id == event_id) with
          | true => exact absurd h h1
          | false => rfl
        have h2 : (e.iCalUID == some uid) = true := by
          have : e.iCalUID = some uid := by
            rw [← hguid e, hge]; exact hevuid
          simp [this]
        exact hgapp e (Or.inr ⟨h2, h1f⟩)
    rw [← hge, happ, getF_applyUpdates,
      lastAssigned_eq_of_mem us fu hfu him hdup]
    rfl

/-- Witness: the C9 theorem at the two-copy store, updating event 4's
summary twice. -/
theorem update_event_idempotent_witness :
    (([FieldUpdate.summary "z"].map FieldUpdate.field).Nodup ∧
      dbTwoCopies.events.find? (fun e => e.id == 4) =
        some ⟨4, 1, "m", none, 0, 60, false, none, .confirmed, none,
          some 3, 0⟩ ∧
      (⟨4, 1, "m", none, 0, 60, false, none, .confirmed, none, some 3, 0⟩ :
        Event).iCalUID = some 3) ∧
    (update_event (resultStore dbTwoCopies
        (update_event dbTwoCopies 4 [FieldUpdate.summary "z"])) 4
        [FieldUpdate.summary "z"] =
      .ok (resultStore dbTwoCopies
        (update_event dbTwoCopies 4 [FieldUpdate.summary "z"])) ∧
      ∀ ev ∈ (resultStore dbTwoCopies
          (update_event dbTwoCopies 4 [FieldUpdate.summary "z"])).events,
        ev.iCalUID = some 3 →
        ∀ fu ∈ [FieldUpdate.summary "z"], fu.isImmutable = false →
          ev.getF fu.field = fu.value) :=
  ⟨⟨by decide, by decide, by decide⟩,
    update_event_idempotent dbTwoCopies 4 [FieldUpdate.summary "z"]
      ⟨4, 1, "m", none, 0, 60, false, none, .confirmed, none, some 3, 0⟩ 3
      (by decide) (by decide) (by decide)⟩

/-- Witness: the C8 theorem at two concrete stores — event 10 carrying
an explicit reminder that overrides a configured calendar default, and
the same store without event reminders falling back to that default. -/
theorem get_event_reminders_resolution_witness :
    (eventReminderRows dbReminderOverride evReminder ≠ [] ∧
      get_event_reminders dbReminderOverride evReminder =
        (eventReminderRows dbReminderOverride evReminder).map
          (fun r => (r.method, r.minutes_before))) ∧
    (eventReminderRows dbReminderDefaults evReminder = [] ∧
      get_event_reminders dbReminderDefaults evReminder =
        [DefaultReminder.mk (some ReminderMethod.email) (some 45)].map
          (fun d => (d.method.getD .popup, d.minutes.getD 30))) :=
  ⟨⟨by decide,
    (get_event_reminders_resolution dbReminderOverride evReminder).1
      (by decide)⟩,
   ⟨by decide,
    (get_event_reminders_resolution dbReminderDefaults evReminder).2.1
      (by decide)
      ⟨20, "c", "UTC", 30, none⟩
      ⟨30, 20, some [DefaultReminder.mk (some .email) (some 45)], true⟩
      [DefaultReminder.mk (some .email) (some 45)]
      (by decide) (by decide) (by decide) (by decide)⟩⟩

/-! ### `update_attendee_response`: C3 -/

/-- Two attendee rows that agree on every column except possibly
`response_status`. -/
def sameButStatus (r r2 : EventAttendee) : Prop :=
  r2 = { r with response_status := r2.response_status }

lemma sameButStatus_trans (a b c : EventAttendee)
    (h1 : sameButStatus a b) (h2 : sameButStatus b c) :
    sameButStatus a c := by
  unfold sameButStatus at *
  rw [h2, h1]

lemma forall₂_sbs_trans {l1 l2 l3 : List EventAttendee}
    (h1 : List.Forall₂ sameButStatus l1 l2)
    (h2 : List.Forall₂ sameButStatus l2 l3) :
    List.Forall₂ sameButStatus l1 l3 := by
  induction h1 generalizing l3 with
  | nil =>
    cases h2
    exact List.Forall₂.nil
  | cons hab h1x ih =>
    cases h2 with
    | cons hbc h2x =>
      exact List.Forall₂.cons (sameButStatus_trans _ _ _ hab hbc) (ih h2x)

lemma updateFirst_sbs (p : EventAttendee → Bool)
    (s : AttendeeResponseStatus) (l : List EventAttendee) :
    List.Forall₂ sameButStatus l
      (updateFirst p (fun r => { r with response_status := s }) l) := by
  induction l with
  | nil => exact List.Forall₂.nil
  | cons r rs ih =>
    show List.Forall₂ sameButStatus (r :: rs)
      (if p r then _ :: rs else r :: updateFirst p _ rs)
    by_cases hp : p r
    · rw [if_pos hp]
      exact List.Forall₂.cons rfl (List.forall₂_same.mpr (fun x _ => rfl))
    · rw [if_neg hp]
      exact List.Forall₂.cons rfl ih

lemma find?_updateFirst_self (p : EventAttendee → Bool)
    (f : EventAttendee → EventAttendee) (l : List EventAttendee)
    (hpf : ∀ r, p (f r) = p r) :
    (updateFirst p f l).find? p = (l.find? p).map f := by
  induction l with
  | nil => rfl
  | cons r rs ih =>
    show (if p r then f r :: rs else r :: updateFirst p f rs).find? p = _
    by_cases hp : p r
    · rw [if_pos hp]
      have h1 : List.find? p (f r :: rs) = some (f r) :=
        List.find?_cons_of_pos rs (by rw [hpf]; exact hp)
      have h2 : List.find? p (r :: rs) = some r :=
        List.find?_cons_of_pos rs hp
      rw [h1, h2]
      rfl
    · rw [if_neg hp]
      have hpb : ¬ p r = true := hp
      have h1 : List.find? p (r :: updateFirst p f rs) =
          List.find? p (updateFirst p f rs) :=
        List.find?_cons_of_neg _ hpb
      have h2 : List.find? p (r :: rs) = List.find? p rs :=
        List.find?_cons_of_neg rs hpb
      rw [h1, h2, ih]

lemma find?_updateFirst_cases (q pred : EventAttendee → Bool)
    (f : EventAttendee → EventAttendee) (l : List EventAttendee)
    (hq : ∀ r, pred (f r) = pred r) (r2 : EventAttendee)
    (h : (updateFirst q f l).find? pred = some r2) :
    ∃ r, l.find? pred = some r ∧ (r2 = r ∨ r2 = f r) := by
  induction l with
  | nil => exact absurd h (by simp [updateFirst])
  | cons r rs ih =>
    rw [show updateFirst q f (r :: rs) =
      (if q r then f r :: rs else r :: updateFirst q f rs) from rfl] at h
    by_cases hqr : q r
    · rw [if_pos hqr] at h
      by_cases hpr : pred r = true
      · have h1 : List.find? pred (f r :: rs) = some (f r) :=
          List.find?_cons_of_pos rs (by rw [hq]; exact hpr)
        rw [h1] at h
        exact ⟨r, List.find?_cons_of_pos rs hpr,
          Or.inr (Option.some.inj h).symm⟩
      · have h1 : List.find? pred (f r :: rs) = List.find? pred rs :=
          List.find?_cons_of_neg rs (by rw [hq]; exact hpr)
        rw [h1] at h
        exact ⟨r2, by rw [List.find?_cons_of_neg rs hpr]; exact h,
          Or.inl rfl⟩
    · rw [if_neg hqr] at h
      by_cases hpr : pred r = true
      · have h1 : List.find? pred (r :: updateFirst q f rs) = some r :=
          List.find?_cons_of_pos _ hpr
        rw [h1] at h
        exact ⟨r, List.find?_cons_of_pos rs hpr,
          Or.inl (Option.some.inj h).symm⟩
      · have h1 : List.find? pred (r :: updateFirst q f rs) =
            List.find? pred (updateFirst q f rs) :=
          List.find?_cons_of_neg _ hpr
        rw [h1] at h
        obtain ⟨r3, hfind, hcase⟩ := ih h
        exact ⟨r3, by rw [List.find?_cons_of_neg rs hpr]; exact hfind,
          hcase⟩

/-- Reading the roster row for `email` on event `i` in `l` yields the
new status. -/
def goodRow (l : List EventAttendee) (i : Nat) (email : String)
    (s : AttendeeResponseStatus) : Prop :=
  ∀ r2, l.find? (fun r => r.event_id == i && r.email == email) =
    some r2 → r2.response_status = s

lemma goodRow_updateFirst (l : List EventAttendee) (i : Nat)
    (email : String) (s : AttendeeResponseStatus) (c : Nat)
    (hgood : goodRow l i email s) :
    goodRow (updateFirst (fun r => r.event_id == c && r.email == email)
      (fun r => { r with response_status := s }) l) i email s := by
  intro r2 h
  obtain ⟨r, hfind, hcase⟩ := find?_updateFirst_cases
    (fun r => r.event_id == c && r.email == email)
    (fun r => r.event_id == i && r.email == email)
    (fun r => { r with response_status := s }) l (fun r => rfl) r2 h
  rcases hcase with hc | hc
  · rw [hc]
    exact hgood r hfind
  · rw [hc]

lemma goodRow_updateFirst_self (l : List EventAttendee) (c : Nat)
    (email : String) (s : AttendeeResponseStatus) :
    goodRow (updateFirst (fun r => r.event_id == c && r.email == email)
      (fun r => { r with response_status := s }) l) c email s := by
  intro r2 h
  rw [find?_updateFirst_self
    (fun r => r.event_id == c && r.email == email)
    (fun r => { r with response_status := s }) l (fun r => rfl)] at h
  cases hf : l.find? (fun r => r.event_id == c && r.email == email) with
  | none => rw [hf] at h; exact absurd h (by simp)
  | some r =>
    rw [hf] at h
    have : r2 = { r with response_status := s } :=
      (Option.some.inj h).symm
    rw [this]

lemma foldl_goodRow_preserved (copies : List Event) (email : String)
    (s : AttendeeResponseStatus) (acc : List EventAttendee) (i : Nat)
    (hgood : goodRow acc i email s) :
    goodRow (copies.foldl (fun acc copy =>
      updateFirst (fun r => r.event_id == copy.id && r.email == email)
        (fun r => { r with response_status := s }) acc) acc) i email s := by
  induction copies generalizing acc with
  | nil => exact hgood
  | cons c cs ih =>
    exact ih _ (goodRow_updateFirst acc i email s c.id hgood)

lemma foldl_goodRow_member (copies : List Event) (email : String)
    (s : AttendeeResponseStatus) (acc : List EventAttendee) (c : Event)
    (hmem : c ∈ copies) :
    goodRow (copies.foldl (fun acc copy =>
      updateFirst (fun r => r.event_id == copy.id && r.email == email)
        (fun r => { r with response_status := s }) acc) acc) c.id email
      s := by
  induction copies generalizing acc with
  | nil => exact absurd hmem (List.not_mem_nil c)
  | cons d cs ih =>
    rcases List.mem_cons.mp hmem with heq | htail
    · subst heq
      exact foldl_goodRow_preserved cs email s _ c.id
        (goodRow_updateFirst_self acc c.id email s)
    · exact ih _ htail

lemma foldl_updateFirst_sbs (copies : List Event) (email : String)
    (s : AttendeeResponseStatus) (acc0 base : List EventAttendee)
    (hbase : List.Forall₂ sameButStatus base acc0) :
    List.Forall₂ sameButStatus base
      (copies.foldl (fun acc copy =>
        updateFirst (fun r => r.event_id == copy.id && r.email == email)
          (fun r => { r with response_status := s }) acc) acc0) := by
  induction copies generalizing acc0 with
  | nil => exact hbase
  | cons c cs ih =>
    exact ih _ (forall₂_sbs_trans hbase (updateFirst_sbs _ s acc0))

lemma uar_ok_form (db : DB) (event_id : Nat) (attendee_email : String)
    (response_status : AttendeeResponseStatus) (ev0 : Event) (uid : Nat)
    (r0 : EventAttendee)
    (hfind : db.events.find? (fun e => e.id == event_id) = some ev0)
    (huid : ev0.iCalUID = some uid)
    (hrow : db.event_attendees.find? (fun r =>
      r.event_id == event_id && r.email == attendee_email) = some r0) :
    update_attendee_response db event_id attendee_email response_status =
      .ok { db with event_attendees :=
        ((db.events.filter (fun e =>
            e.iCalUID == some uid && e.id != event_id)).foldl
          (fun acc copy =>
            updateFirst (fun r =>
                r.event_id == copy.id && r.email == attendee_email)
              (fun r => { r with response_status := response_status })
              acc)
          (updateFirst (fun r =>
              r.event_id == event_id && r.email == attendee_email)
            (fun r => { r with response_status := response_status })
            db.event_attendees)) } := by
  unfold update_attendee_response
  simp only [hfind, huid, hrow]

/-- **C3**: on an existing event copy with a non-null iCalUID,
`update_attendee_response` raises when no EventAttendee row with the
email exists on that copy (it never adds attendees); otherwise it
succeeds, leaves the events table untouched, changes attendee rows only
in their `response_status` (same rows, same order — nothing inserted or
deleted), and afterwards re-reading the roster row for that email on any
Event row sharing the iCalUID (the addressed copy included) yields the
new status. -/
theorem update_attendee_response_spec (db : DB) (event_id : Nat)
    (attendee_email : String)
    (response_status : AttendeeResponseStatus) :
    (∀ ev0 uid, db.events.find? (fun e => e.id == event_id) = some ev0 →
      ev0.iCalUID = some uid →
      db.event_attendees.find? (fun r =>
        r.event_id == event_id && r.email == attendee_email) = none →
      update_attendee_response db event_id attendee_email
        response_status = .error "Attendee not found on event") ∧
    (∀ ev0 uid r0,
      db.events.find? (fun e => e.id == event_id) = some ev0 →
      ev0.iCalUID = some uid →
      db.event_attendees.find? (fun r =>
        r.event_id == event_id && r.email == attendee_email) = some r0 →
      exceptIsOk (update_attendee_response db event_id attendee_email
        response_status) = true ∧
      (resultStore db (update_attendee_response db event_id
        attendee_email response_status)).events = db.events ∧
      List.Forall₂ sameButStatus db.event_attendees
        (resultStore db (update_attendee_response db event_id
          attendee_email response_status)).event_attendees ∧
      ∀ ev ∈ db.events, ev.iCalUID = some uid →
        goodRow (resultStore db (update_attendee_response db event_id
          attendee_email response_status)).event_attendees ev.id
          attendee_email response_status) := by
  constructor
  · intro ev0 uid hfind huid hnone
    unfold update_attendee_response
    simp only [hfind, huid, hnone]
  · intro ev0 uid r0 hfind huid hrow
    rw [uar_ok_form db event_id attendee_email response_status ev0 uid r0
      hfind huid hrow]
    refine ⟨rfl, rfl, ?_, ?_⟩
    · exact foldl_updateFirst_sbs _ _ _ _ _
        (updateFirst_sbs _ response_status _)
    · intro ev hmem hevuid
      by_cases hid : ev.id = event_id
      · show goodRow _ ev.id attendee_email response_status
        rw [hid]
        exact foldl_goodRow_preserved _ _ _ _ event_id
          (goodRow_updateFirst_self _ event_id _ _)
      · have hmemf : ev ∈ db.events.filter (fun e =>
            e.iCalUID == some uid && e.id != event_id) := by
          rw [List.mem_filter]
          refine ⟨hmem, ?_⟩
          simp [hevuid, hid]
        exact foldl_goodRow_member _ _ _ _ ev hmemf

/-- Witness: the C3 theorem at the two-copy store — a response on the
attendee's copy (event 5) for "b@x", and the raising branch for an
email absent from the roster. -/
theorem update_attendee_response_spec_witness :
    (dbTwoCopies.events.find? (fun e => e.id == 5) =
        some ⟨5, 9, "m", none, 0, 60, false, none, .confirmed, none,
          some 3, 0⟩ ∧
      dbTwoCopies.event_attendees.find? (fun r =>
        r.event_id == 5 && r.email == "b@x") =
        some ⟨5, "b@x", "b", .needsAction, false, false⟩ ∧
      dbTwoCopies.event_attendees.find? (fun r =>
        r.event_id == 5 && r.email == "nobody@x") = none) ∧
    update_attendee_response dbTwoCopies 5 "nobody@x" .accepted =
      .error "Attendee not found on event" ∧
    (exceptIsOk (update_attendee_response dbTwoCopies 5 "b@x"
        .accepted) = true ∧
      (resultStore dbTwoCopies (update_attendee_response dbTwoCopies 5
        "b@x" .accepted)).events = dbTwoCopies.events ∧
      List.Forall₂ sameButStatus dbTwoCopies.event_attendees
        (resultStore dbTwoCopies (update_attendee_response dbTwoCopies 5
          "b@x" .accepted)).event_attendees ∧
      ∀ ev ∈ dbTwoCopies.events, ev.iCalUID = some 3 →
        goodRow (resultStore dbTwoCopies (update_attendee_response
          dbTwoCopies 5 "b@x" .accepted)).event_attendees ev.id "b@x"
          .accepted) :=
  ⟨⟨by decide, by decide, by decide⟩,
   (update_attendee_response_spec dbTwoCopies 5 "nobody@x" .accepted).1
      ⟨5, 9, "m", none, 0, 60, false, none, .confirmed, none, some 3, 0⟩
      3 (by decide) (by decide) (by decide),
   (update_attendee_response_spec dbTwoCopies 5 "b@x" .accepted).2
      ⟨5, 9, "m", none, 0, 60, false, none, .confirmed, none, some 3, 0⟩
      3 ⟨5, "b@x", "b", .needsAction, false, false⟩
      (by decide) (by decide) (by decide)⟩

/-! ### `create_event`: the copy fan-out loop -/

lemma get_or_create_effects (t : Tx) (user_id : Nat) (t' : Tx)
    (calId : Nat)
    (h : get_or_create_user_calendar t user_id = .ok (t', calId)) :
    t'.working.users = t.working.users ∧
    t'.working.events = t.working.events ∧
    t'.working.event_attendees = t.working.event_attendees ∧
    t.working.nextId ≤ t'.working.nextId := by
  unfold get_or_create_user_calendar at h
  cases hfind : t.working.calendar_list_entries.find? (fun en =>
      en.user_id == user_id && en.is_primary) with
  | some entry =>
    rw [hfind] at h
    cases h
    exact ⟨rfl, rfl, rfl, le_refl _⟩
  | none =>
    rw [hfind] at h
    cases huser : t.working.users.find? (fun u => u.id == user_id) with
    | none => rw [huser] at h; cases h
    | some user =>
      rw [huser] at h
      cases h
      exact ⟨rfl, rfl, rfl, Nat.le_succ _⟩

lemma copyStep_some_eq (oe : Event) (ro : List AttendeeData) (t : Tx)
    (a : AttendeeInput) (user : User)
    (huser : t.working.users.find? (fun u => u.email == a.email) =
      some user) :
    copyStep oe ro t a =
      match get_or_create_user_calendar t user.id with
      | .error _ => .error t.committed
      | .ok (t1, attendee_calendar_id) =>
        match insertEvent
            { t1.working with nextId := t1.working.nextId + 1 }
            { oe with id := t1.working.nextId,
                      calendar_id := attendee_calendar_id } with
        | none => .error t1.committed
        | some w =>
          .ok { t1 with working := { w with event_attendees :=
            (w.event_attendees ++
              ro.map (fun a2 => a2.toRow t1.working.nextId)) } } := by
  unfold copyStep
  rw [huser]

lemma copyStep_inv (db : DB) (uid eid : Nat) (oe : Event)
    (ro : List AttendeeData) (hoe : oe.iCalUID = some uid)
    (pre : List AttendeeInput) (a : AttendeeInput) (t t' : Tx)
    (hinv : createLoopInv db uid eid oe ro pre t)
    (hstep : copyStep oe ro t a = .ok t') :
    createLoopInv db uid eid oe ro (pre ++ [a]) t' := by
  obtain ⟨husers, hnext, copies, hevents, hcount, hcopies, hpw, hatts⟩ :=
    hinv
  cases huser : t.working.users.find? (fun u => u.email == a.email) with
  | none =>
    unfold copyStep at hstep
    rw [huser] at hstep
    obtain rfl : t = t' := by cases hstep; rfl
    have hany : db.users.any (fun u => u.email == a.email) = false := by
      rw [← husers]
      cases hany2 : t.working.users.any (fun u => u.email == a.email) with
      | false => rfl
      | true =>
        obtain ⟨u, humem, hueq⟩ := List.any_eq_true.mp hany2
        exact absurd hueq (List.find?_eq_none.mp huser u humem)
    refine ⟨husers, hnext, copies, hevents, ?_, hcopies, hpw, hatts⟩
    rw [List.filter_append, List.length_append, hcount]
    simp [hany]
  | some user =>
    rw [copyStep_some_eq oe ro t a user huser] at hstep
    cases hgoc : get_or_create_user_calendar t user.id with
    | error e =>
      rw [hgoc] at hstep
      cases hstep
    | ok pair =>
      obtain ⟨t1, calId⟩ := pair
      rw [hgoc] at hstep
      simp only [] at hstep
      obtain ⟨hu1, he1, ha1, hn1⟩ := get_or_create_effects t user.id t1
        calId hgoc
      split at hstep
      · cases hstep
      · rename_i w hins
        cases hstep
        have hw : w.events = t1.working.events ++
            [{ oe with id := t1.working.nextId, calendar_id := calId }] ∧
            w.users = t1.working.users ∧
            w.event_attendees = t1.working.event_attendees ∧
            w.nextId = t1.working.nextId + 1 := by
          unfold insertEvent at hins
          split at hins
          · cases hins
          · cases hins
            exact ⟨rfl, rfl, rfl, rfl⟩
        obtain ⟨hwev, hwu, hwa, hwn⟩ := hw
        have hany : db.users.any (fun u => u.email == a.email) = true := by
          rw [← husers]
          exact List.any_eq_true.mpr ⟨user,
            List.mem_of_find?_eq_some huser,
            @List.find?_some User (fun u => u.email == a.email) user
              t.working.users huser⟩
        have hle : t.working.nextId ≤ t1.working.nextId := hn1
        refine ⟨?_, ?_, copies ++
          [{ oe with id := t1.working.nextId, calendar_id := calId }],
          ?_, ?_, ?_, ?_, ?_⟩
        · show w.users = db.users
          rw [hwu, hu1, husers]
        · show eid < w.nextId
          rw [hwn]
          exact Nat.lt_succ_of_lt (Nat.lt_of_lt_of_le hnext hle)
        · show w.events = db.events ++ oe :: (copies ++ _)
          rw [hwev, he1, hevents, List.append_assoc]
          rfl
        · rw [List.filter_append, List.length_append, List.length_append,
            hcount]
          simp [hany]
        · intro c hc
          rcases List.mem_append.mp hc with hold | hnew
          · obtain ⟨hcu, hce, hcn⟩ := hcopies c hold
            refine ⟨hcu, hce, ?_⟩
            show c.id < w.nextId
            rw [hwn]
            exact Nat.lt_succ_of_lt (Nat.lt_of_lt_of_le hcn hle)
          · rw [List.mem_singleton.mp hnew]
            refine ⟨hoe, Nat.lt_of_lt_of_le hnext hle, ?_⟩
            show t1.working.nextId < w.nextId
            rw [hwn]
            exact Nat.lt_succ_self _
        · rw [List.pairwise_append]
          refine ⟨hpw, List.pairwise_singleton _ _, ?_⟩
          intro x hx y hy
          rw [List.mem_singleton.mp hy]
          exact Nat.lt_of_lt_of_le (hcopies x hx).2.2 hle
        · show w.event_attendees ++
            ro.map (fun a2 => a2.toRow t1.working.nextId) = _
          rw [hwa, ha1, hatts, List.flatMap_append]
          simp [List.append_assoc]

lemma copyFold_inv (db : DB) (uid eid : Nat) (oe : Event)
    (ro : List AttendeeData) (hoe : oe.iCalUID = some uid)
    (rest : List AttendeeInput) :
    ∀ (pre : List AttendeeInput) (t t' : Tx),
    createLoopInv db uid eid oe ro pre t →
    rest.foldlM (copyStep oe ro) t = .ok t' →
    createLoopInv db uid eid oe ro (pre ++ rest) t' := by
  induction rest with
  | nil =>
    intro pre t t' hinv hfold
    cases hfold
    simpa using hinv
  | cons a as ih =>
    intro pre t t' hinv hfold
    rw [List.foldlM_cons] at hfold
    cases hstep : copyStep oe ro t a with
    | error e =>
      rw [hstep] at hfold
      cases hfold
    | ok t1 =>
      rw [hstep] at hfold
      have h1 := copyStep_inv db uid eid oe ro hoe pre a t t1 hinv hstep
      have h2 := ih (pre ++ [a]) t1 t' h1 hfold
      rw [List.append_assoc] at h2
      simpa using h2

lemma toRow_block_filter_eq (ro : List AttendeeData) (j : Nat) :
    (ro.map (fun a => a.toRow j)).filter (fun r => r.event_id == j) =
      ro.map (fun a => a.toRow j) := by
  rw [List.filter_eq_self]
  intro r hr
  obtain ⟨a, _, rfl⟩ := List.mem_map.mp hr
  simp [AttendeeData.toRow]

lemma toRow_block_filter_ne (ro : List AttendeeData) (j i : Nat)
    (h : ¬ j = i) :
    (ro.map (fun a => a.toRow j)).filter (fun r => r.event_id == i) =
      [] := by
  rw [List.filter_eq_nil_iff]
  intro r hr
  obtain ⟨a, _, rfl⟩ := List.mem_map.mp hr
  simp [AttendeeData.toRow, h]

lemma flatMap_blocks_filter_ne (ro : List AttendeeData)
    (copies : List Event) (i : Nat) (h : ∀ c ∈ copies, ¬ c.id = i) :
    (copies.flatMap (fun c =>
      ro.map (fun a => a.toRow c.id))).filter
        (fun r => r.event_id == i) = [] := by
  induction copies with
  | nil => rfl
  | cons c cs ih =>
    rw [List.flatMap_cons, List.filter_append,
      toRow_block_filter_ne ro c.id i (h c (List.mem_cons_self c cs)),
      ih (fun c2 hc2 => h c2 (List.mem_cons_of_mem c hc2))]
    rfl

lemma flatMap_blocks_filter_mem (ro : List AttendeeData)
    (copies : List Event) (c0 : Event) (hmem : c0 ∈ copies)
    (hpw : List.Pairwise (fun a b => a.id < b.id) copies) :
    (copies.flatMap (fun c =>
      ro.map (fun a => a.toRow c.id))).filter
        (fun r => r.event_id == c0.id) =
      ro.map (fun a => a.toRow c0.id) := by
  induction copies with
  | nil => exact absurd hmem (List.not_mem_nil c0)
  | cons c cs ih =>
    obtain ⟨hhead, htailpw⟩ := List.pairwise_cons.mp hpw
    rw [List.flatMap_cons, List.filter_append]
    rcases List.mem_cons.mp hmem with heq | htail
    · subst heq
      rw [toRow_block_filter_eq,
        flatMap_blocks_filter_ne ro cs c0.id
          (fun c2 hc2 => Nat.ne_of_gt (hhead c2 hc2)),
        List.append_nil]
    · rw [toRow_block_filter_ne ro c.id c0.id
        (Nat.ne_of_lt (hhead c0 htail)), ih htail htailpw]
      rfl

lemma roster_block_eq (org : String) (ats : List AttendeeInput) (i : Nat) :
    (mkAllAttendees org ats).map (fun a => a.toRow i) =
      ({ event_id := i, email := org, display_name := localPart org,
         response_status := .accepted, is_organizer := true,
         is_optional := false } : EventAttendee) ::
      ats.map (fun a =>
        { event_id := i, email := a.email,
          display_name := a.display_name.getD (localPart a.email),
          response_status := .needsAction, is_organizer := false,
          is_optional := a.is_optional.getD false }) := by
  unfold mkAllAttendees
  rw [List.map_cons, List.map_map]
  rfl

theorem create_event_propagation (db : DB) (calendar_id : Nat)
    (organizer_email : String) (p : Payload) (hfresh : Fresh db)
    (hok : (create_event db calendar_id organizer_email p).isOk = true) :
    ((create_event db calendar_id organizer_email p).store.events.find?
      (fun e => e.id ==
        (create_event db calendar_id organizer_email p).eventId) =
      some { id := db.nextId + 1, calendar_id := calendar_id,
             summary := p.summary, description := p.description,
             start := p.start, end_ := p.end_,
             location := p.location, status := p.status.getD .confirmed,
             is_all_day := p.is_all_day.getD false,
             recurrence := p.recurrence, iCalUID := some db.nextId,
             created_at := 0 }) ∧
    (((create_event db calendar_id organizer_email
        p).store.events.filter
      (fun e => e.iCalUID == some db.nextId)).length =
      1 + (p.attendees.filter (fun a =>
        db.users.any (fun u => u.email == a.email))).length) ∧
    (∀ ev ∈ (create_event db calendar_id organizer_email p).store.events,
      ev.iCalUID = some db.nextId →
      (create_event db calendar_id organizer_email
          p).store.event_attendees.filter
        (fun r => r.event_id == ev.id) =
        ({ event_id := ev.id, email := organizer_email,
           display_name := localPart organizer_email,
           response_status := .accepted, is_organizer := true,
           is_optional := false } : EventAttendee) ::
        p.attendees.map (fun a =>
          { event_id := ev.id, email := a.email,
            display_name := a.display_name.getD (localPart a.email),
            response_status := .needsAction, is_organizer := false,
            is_optional := a.is_optional.getD false })) ∧
    (∀ e ∈ db.events, e.iCalUID ≠ some db.nextId) := by
  obtain ⟨hfe, hfc, hfu, hfa⟩ := hfresh
  cases hcr : create_event db calendar_id organizer_email p with
  | err dbf =>
    rw [hcr] at hok
    exact Bool.noConfusion hok
  | ok S retId =>
    simp only [CreateResult.store, CreateResult.eventId]
    unfold create_event at hcr
    simp only [generate_ical_uid] at hcr
    split at hcr
    · cases hcr
    · rename_i db3 hins
      split at hcr
      · cases hcr
      · rename_i t hfold
        cases hcr
        have hdb3 : db3.events = db.events ++
            [{ id := db.nextId + 1, calendar_id := calendar_id,
               summary := p.summary, description := p.description,
               start := p.start, end_ := p.end_,
               is_all_day := p.is_all_day.getD false,
               location := p.location,
               status := p.status.getD .confirmed,
               recurrence := p.recurrence, iCalUID := some db.nextId,
               created_at := 0 }] ∧
            db3.users = db.users ∧
            db3.event_attendees = db.event_attendees ∧
            db3.nextId = db.nextId + 1 + 1 := by
          unfold insertEvent at hins
          split at hins
          · cases hins
          · cases hins
            exact ⟨rfl, rfl, rfl, rfl⟩
        obtain ⟨h3e, h3u, h3a, h3n⟩ := hdb3
        have hinv0 : createLoopInv db db.nextId (db.nextId + 1)
            { id := db.nextId + 1, calendar_id := calendar_id,
              summary := p.summary, description := p.description,
              start := p.start, end_ := p.end_,
              is_all_day := p.is_all_day.getD false,
              location := p.location,
              status := p.status.getD .confirmed,
              recurrence := p.recurrence, iCalUID := some db.nextId,
              created_at := 0 }
            (mkAllAttendees organizer_email p.attendees) []
            ⟨db, { db3 with event_attendees := (db3.event_attendees ++
              (mkAllAttendees organizer_email p.attendees).map
                (fun a => a.toRow (db.nextId + 1))) }⟩ := by
          refine ⟨h3u, ?_, [], ?_, rfl, ?_, List.Pairwise.nil, ?_⟩
          · show db.nextId + 1 < db3.nextId
            rw [h3n]
            exact Nat.lt_succ_self _
          · show db3.events = db.events ++ _ :: []
            rw [h3e]
          · intro c hc
            exact absurd hc (List.not_mem_nil c)
          · show db3.event_attendees ++ _ = _
            rw [h3a, List.flatMap_nil, List.append_nil]
        have hinv1 := copyFold_inv db db.nextId (db.nextId + 1) _ _ rfl
          p.attendees [] _ t hinv0 hfold
        rw [List.nil_append] at hinv1
        obtain ⟨husers, hnext, copies, hevents, hcount, hcopies, hpw,
          hatts⟩ := hinv1
        simp only [Tx.commit]
        refine ⟨?_, ?_, ?_, ?_⟩
        · rw [hevents, List.find?_append]
          have h1 : db.events.find?
              (fun e => e.id == db.nextId + 1) = none := by
            rw [List.find?_eq_none]
            intro e he hbeq
            rw [beq_iff_eq] at hbeq
            have := (hfe e he).1
            omega
          rw [h1, Option.none_or]
          exact List.find?_cons_of_pos _ (by simp)
        · rw [hevents, List.filter_append]
          have h1 : db.events.filter
              (fun e => e.iCalUID == some db.nextId) = [] := by
            rw [List.filter_eq_nil_iff]
            intro e he hbeq
            rw [beq_iff_eq] at hbeq
            have := (hfe e he).2 db.nextId hbeq
            omega
          rw [h1, List.nil_append]
          have h2 : List.filter (fun e => e.iCalUID == some db.nextId)
              ({ id := db.nextId + 1, calendar_id := calendar_id,
                 summary := p.summary, description := p.description,
                 start := p.start, end_ := p.end_,
                 is_all_day := p.is_all_day.getD false,
                 location := p.location,
                 status := p.status.getD .confirmed,
                 recurrence := p.recurrence, iCalUID := some db.nextId,
                 created_at := 0 } :: copies) =
              { id := db.nextId + 1, calendar_id := calendar_id,
                summary := p.summary, description := p.description,
                start := p.start, end_ := p.end_,
                is_all_day := p.is_all_day.getD false,
                location := p.location,
                status := p.status.getD .confirmed,
                recurrence := p.recurrence, iCalUID := some db.nextId,
                created_at := 0 } :: copies := by
            rw [List.filter_eq_self]
            intro e he
            rcases List.mem_cons.mp he with heq | hcm
            · rw [heq]
              simp
            · rw [beq_iff_eq]
              exact (hcopies e hcm).1
          rw [h2, List.length_cons, hcount]
          omega
        · intro ev hmem hevuid
          rw [hevents] at hmem
          rw [hatts, List.filter_append, List.filter_append]
          rcases List.mem_append.mp hmem with hdb | hoc
          · exfalso
            have := (hfe ev hdb).2 db.nextId hevuid
            omega
          rcases List.mem_cons.mp hoc with heq | hcmem
          · have hidv : ev.id = db.nextId + 1 := by rw [heq]
            simp only [hidv]
            have hold : db.event_attendees.filter
                (fun r => r.event_id == db.nextId + 1) = [] := by
              rw [List.filter_eq_nil_iff]
              intro r hr hbeq
              rw [beq_iff_eq] at hbeq
              have := hfa r hr
              omega
            have hfmne : ((copies.flatMap (fun c =>
                (mkAllAttendees organizer_email p.attendees).map
                  (fun a => a.toRow c.id))).filter
                (fun r => r.event_id == db.nextId + 1)) = [] := by
              apply flatMap_blocks_filter_ne
              intro c hc
              have := (hcopies c hc).2.1
              omega
            rw [hold, toRow_block_filter_eq, hfmne, List.nil_append,
              List.append_nil]
            exact roster_block_eq organizer_email p.attendees
              (db.nextId + 1)
          · obtain ⟨hcu, hce, hcn⟩ := hcopies ev hcmem
            have hold : db.event_attendees.filter
                (fun r => r.event_id == ev.id) = [] := by
              rw [List.filter_eq_nil_iff]
              intro r hr hbeq
              rw [beq_iff_eq] at hbeq
              have := hfa r hr
              omega
            have hblock : ((mkAllAttendees organizer_email
                p.attendees).map
                (fun a => a.toRow (db.nextId + 1))).filter
                (fun r => r.event_id == ev.id) = [] := by
              apply toRow_block_filter_ne
              omega
            have hfm := flatMap_blocks_filter_mem
              (mkAllAttendees organizer_email p.attendees) copies ev
              hcmem hpw
            rw [hold, hblock, hfm, List.nil_append, List.nil_append]
            exact roster_block_eq organizer_email p.attendees ev.id
        · intro e he heq
          have := (hfe e he).2 db.nextId heq
          omega

/-- Witness for C1: on a concrete store with one resolvable and one
unknown invitee, `create_event` succeeds and the claimed propagation
facts hold. -/
theorem create_event_propagation_witness :
    Fresh dbKnownAttendee ∧
    (create_event dbKnownAttendee 1 "o@x" payloadTwo).isOk = true ∧
    ((create_event dbKnownAttendee 1 "o@x" payloadTwo).store.events.filter
      (fun e => e.iCalUID == some dbKnownAttendee.nextId)).length =
      1 + (payloadTwo.attendees.filter (fun a =>
        dbKnownAttendee.users.any (fun u => u.email == a.email))).length :=
  have hf : Fresh dbKnownAttendee :=
    ⟨by simp [dbKnownAttendee], by decide, by decide,
     by simp [dbKnownAttendee]⟩
  ⟨hf, by decide,
    (create_event_propagation dbKnownAttendee 1 "o@x" payloadTwo hf
      (by decide)).2.1⟩


/-- If the attendee's resolved user already has a primary calendar list
entry, `copyStep` never commits: an error carries the untouched
committed store, and a success leaves the committed snapshot and the
user / calendar-list tables unchanged. -/
theorem copyStep_no_lazy (db : DB) (oe : Event) (ro : List AttendeeData)
    (t : Tx) (a : AttendeeInput)
    (ha : ∀ u ∈ db.users, u.email = a.email →
      (db.calendar_list_entries.find? (fun en =>
        en.user_id == u.id && en.is_primary)).isSome = true)
    (h1 : t.committed = db) (h2 : t.working.users = db.users)
    (h3 : t.working.calendar_list_entries = db.calendar_list_entries) :
    (∀ d, copyStep oe ro t a = .error d → d = db) ∧
    (∀ t', copyStep oe ro t a = .ok t' → t'.committed = db ∧
      t'.working.users = db.users ∧
      t'.working.calendar_list_entries = db.calendar_list_entries) := by
  unfold copyStep
  cases hu : t.working.users.find? (fun u => u.email == a.email) with
  | none =>
    simp only [hu]
    constructor
    · intro d hd
      cases hd
    · intro t' ht'
      cases ht'
      exact ⟨h1, h2, h3⟩
  | some user =>
    simp only [hu]
    have hmem : user ∈ db.users := by
      rw [← h2]
      exact List.mem_of_find?_eq_some hu
    have heq : user.email = a.email := by
      have hp := List.find?_some hu
      rwa [beq_iff_eq] at hp
    have hentry := ha user hmem heq
    cases hfind : db.calendar_list_entries.find? (fun en =>
        en.user_id == user.id && en.is_primary) with
    | none =>
      rw [hfind] at hentry
      cases hentry
    | some entry =>
      have hgoc : get_or_create_user_calendar t user.id =
          .ok (t, entry.calendar_id) := by
        unfold get_or_create_user_calendar
        rw [h3, hfind]
      simp only [hgoc]
      cases hins : insertEvent
          { t.working with nextId := t.working.nextId + 1 }
          { oe with id := t.working.nextId,
                    calendar_id := entry.calendar_id } with
      | none =>
        simp only [hins]
        constructor
        · intro d hd
          cases hd
          exact h1
        · intro t' ht'
          cases ht'
      | some w =>
        have hw : w.users = db.users ∧
            w.calendar_list_entries = db.calendar_list_entries := by
          unfold insertEvent at hins
          split at hins
          · cases hins
          · cases hins
            exact ⟨h2, h3⟩
        simp only [hins]
        constructor
        · intro d hd
          cases hd
        · intro t' ht'
          cases ht'
          exact ⟨h1, hw.1, hw.2⟩

/-- Folding `copyStep` over attendees who all already have primary
calendars never commits: an error result carries exactly the initial
committed store. -/
theorem copyFold_committed (db : DB) (oe : Event) (ro : List AttendeeData)
    (l : List AttendeeInput)
    (hnl : ∀ a ∈ l, ∀ u ∈ db.users, u.email = a.email →
      (db.calendar_list_entries.find? (fun en =>
        en.user_id == u.id && en.is_primary)).isSome = true) :
    ∀ t : Tx, t.committed = db → t.working.users = db.users →
      t.working.calendar_list_entries = db.calendar_list_entries →
      ∀ d : DB, l.foldlM (copyStep oe ro) t = .error d → d = db := by
  induction l with
  | nil =>
    intro t h1 h2 h3 d hf
    cases hf
  | cons a rest ih =>
    intro t h1 h2 h3 d hf
    rw [List.foldlM_cons] at hf
    have hstep := copyStep_no_lazy db oe ro t a
      (hnl a (List.mem_cons_self a rest)) h1 h2 h3
    cases hcs : copyStep oe ro t a with
    | error d0 =>
      rw [hcs] at hf
      cases hf
      exact hstep.1 d hcs
    | ok t1 =>
      rw [hcs] at hf
      obtain ⟨g1, g2, g3⟩ := hstep.2 t1 hcs
      exact ih (fun a2 ha2 => hnl a2 (List.mem_cons_of_mem a ha2))
        t1 g1 g2 g3 d hf

/-- C2 (counterexample): `create_event` is not atomic when it lazily
creates an attendee's primary calendar.  On `dbLazyCalendar` (user
"b@x" has no calendar yet) with a duplicate invitee list, the call
fails, yet the persisted store is not the original one: the
organizer's event row survives, because `get_or_create_user_calendar`
committed mid-call before the second copy's flush failed. -/
theorem create_event_partial_commit_cex :
    (create_event dbLazyCalendar 1 "o@x" payloadDup).isOk = false ∧
    (create_event dbLazyCalendar 1 "o@x" payloadDup).store ≠
      dbLazyCalendar ∧
    (create_event dbLazyCalendar 1 "o@x"
      payloadDup).store.events.length = 1 ∧
    dbLazyCalendar.events = [] := by
  refine ⟨by decide, by decide, by decide, by decide⟩

/-- C2 (amended): `create_event` rolls back to the original store on
failure provided no attendee needs a lazily created primary calendar —
i.e. every payload attendee whose email resolves to a known user
already has a primary calendar list entry.  Only the mid-call commit
of `get_or_create_user_calendar` can break atomicity. -/
theorem create_event_atomic_without_lazy_calendar (db : DB)
    (calendar_id : Nat) (organizer_email : String) (p : Payload)
    (hnl : ∀ a ∈ p.attendees, ∀ u ∈ db.users, u.email = a.email →
      (db.calendar_list_entries.find? (fun en =>
        en.user_id == u.id && en.is_primary)).isSome = true)
    (hfail : (create_event db calendar_id organizer_email p).isOk =
      false) :
    (create_event db calendar_id organizer_email p).store = db := by
  cases hcr : create_event db calendar_id organizer_email p with
  | ok S retId =>
    rw [hcr] at hfail
    exact Bool.noConfusion hfail
  | err dbf =>
    simp only [CreateResult.store]
    unfold create_event at hcr
    simp only [generate_ical_uid] at hcr
    split at hcr
    · cases hcr
      rfl
    · rename_i db3 hins
      split at hcr
      · rename_i rolled_back hfold
        cases hcr
        have hdb3 : db3.users = db.users ∧
            db3.calendar_list_entries = db.calendar_list_entries := by
          unfold insertEvent at hins
          split at hins
          · cases hins
          · cases hins
            exact ⟨rfl, rfl⟩
        exact copyFold_committed db _ _ p.attendees hnl _ rfl
          hdb3.1 hdb3.2 dbf hfold
      · cases hcr

/-- Witness for C2's amended theorem: on `dbKnownAttendee` every
resolvable invitee already has a primary calendar; inviting "b@x"
twice makes the second copy's flush fail, and the whole call rolls
back to the original store. -/
theorem create_event_atomic_without_lazy_calendar_witness :
    (∀ a ∈ payloadDup.attendees, ∀ u ∈ dbKnownAttendee.users,
      u.email = a.email →
      (dbKnownAttendee.calendar_list_entries.find? (fun en =>
        en.user_id == u.id && en.is_primary)).isSome = true) ∧
    (create_event dbKnownAttendee 1 "o@x" payloadDup).isOk = false ∧
    (create_event dbKnownAttendee 1 "o@x" payloadDup).store =
      dbKnownAttendee :=
  ⟨by decide, by decide,
    create_event_atomic_without_lazy_calendar dbKnownAttendee 1 "o@x"
      payloadDup (by decide) (by decide)⟩


/-- A successful flush (`insertEvent`) preserves the unique-index
invariant: the conflict check refuses exactly the rows that would
break it. -/
lemma insertEvent_uniq (db : DB) (e : Event) (db' : DB)
    (h : insertEvent db e = some db') (hu : UniqueCalUid db) :
    UniqueCalUid db' := by
  unfold insertEvent at h
  split at h
  · cases h
  · rename_i hnc
    cases h
    unfold UniqueCalUid at hu ⊢
    rw [List.pairwise_append]
    refine ⟨hu, List.pairwise_singleton _ _, ?_⟩
    intro a ha b hb
    rw [List.mem_singleton] at hb
    subst hb
    intro hcon
    obtain ⟨hcal, u, hau, heu⟩ := hcon
    apply hnc
    unfold eventInsertConflicts
    rw [List.any_eq_true]
    refine ⟨a, ha, ?_⟩
    rw [Bool.and_eq_true]
    constructor
    · rw [beq_iff_eq]
      exact hcal
    · simp only [heu, hau]
      exact beq_self_eq_true u

/-- `get_or_create_user_calendar` preserves the unique-index invariant
on both the committed and the working store: it only touches calendars
and list entries, and its mid-call commit promotes a working store in
which the invariant already holds. -/
lemma get_or_create_uniq (t : Tx) (user_id : Nat) (t' : Tx) (calId : Nat)
    (h : get_or_create_user_calendar t user_id = .ok (t', calId))
    (hc : UniqueCalUid t.committed) (hw : UniqueCalUid t.working) :
    UniqueCalUid t'.committed ∧ UniqueCalUid t'.working := by
  unfold get_or_create_user_calendar at h
  cases hfind : t.working.calendar_list_entries.find? (fun en =>
      en.user_id == user_id && en.is_primary) with
  | some entry =>
    rw [hfind] at h
    cases h
    exact ⟨hc, hw⟩
  | none =>
    rw [hfind] at h
    cases huser : t.working.users.find? (fun u => u.id == user_id) with
    | none =>
      rw [huser] at h
      cases h
    | some user =>
      rw [huser] at h
      cases h
      exact ⟨hw, hw⟩

/-- One copy-loop iteration preserves the unique-index invariant on the
committed and working stores; its error result carries an invariant
store. -/
lemma copyStep_uniq (oe : Event) (ro : List AttendeeData) (t : Tx)
    (a : AttendeeInput) (hc : UniqueCalUid t.committed)
    (hw : UniqueCalUid t.working) :
    (∀ d, copyStep oe ro t a = .error d → UniqueCalUid d) ∧
    (∀ t', copyStep oe ro t a = .ok t' → UniqueCalUid t'.committed ∧
      UniqueCalUid t'.working) := by
  unfold copyStep
  cases hu : t.working.users.find? (fun u => u.email == a.email) with
  | none =>
    simp only [hu]
    constructor
    · intro d hd
      cases hd
    · intro t' ht'
      cases ht'
      exact ⟨hc, hw⟩
  | some user =>
    simp only [hu]
    cases hgoc : get_or_create_user_calendar t user.id with
    | error msg =>
      simp only [hgoc]
      constructor
      · intro d hd
        cases hd
        exact hc
      · intro t' ht'
        cases ht'
    | ok pr =>
      obtain ⟨t1, calId⟩ := pr
      obtain ⟨hc1, hw1⟩ := get_or_create_uniq t user.id t1 calId hgoc hc hw
      simp only [hgoc]
      cases hins : insertEvent
          { t1.working with nextId := t1.working.nextId + 1 }
          { oe with id := t1.working.nextId, calendar_id := calId } with
      | none =>
        simp only [hins]
        constructor
        · intro d hd
          cases hd
          exact hc1
        · intro t' ht'
          cases ht'
      | some w =>
        have hwu : UniqueCalUid w := insertEvent_uniq _ _ _ hins hw1
        simp only [hins]
        constructor
        · intro d hd
          cases hd
        · intro t' ht'
          cases ht'
          exact ⟨hc1, hwu⟩

/-- The whole copy fan-out loop preserves the unique-index invariant:
whatever it returns — an error's rolled-back store or a final
transaction — satisfies it. -/
lemma copyFold_uniq (oe : Event) (ro : List AttendeeData)
    (l : List AttendeeInput) :
    ∀ t : Tx, UniqueCalUid t.committed → UniqueCalUid t.working →
      (∀ d, l.foldlM (copyStep oe ro) t = .error d → UniqueCalUid d) ∧
      (∀ t', l.foldlM (copyStep oe ro) t = .ok t' →
        UniqueCalUid t'.committed ∧ UniqueCalUid t'.working) := by
  induction l with
  | nil =>
    intro t hc hw
    constructor
    · intro d hd
      cases hd
    · intro t' ht'
      cases ht'
      exact ⟨hc, hw⟩
  | cons a rest ih =>
    intro t hc hw
    have hstep := copyStep_uniq oe ro t a hc hw
    constructor
    · intro d hd
      rw [List.foldlM_cons] at hd
      cases hcs : copyStep oe ro t a with
      | error d0 =>
        rw [hcs] at hd
        cases hd
        exact hstep.1 d hcs
      | ok t1 =>
        rw [hcs] at hd
        obtain ⟨g1, g2⟩ := hstep.2 t1 hcs
        exact (ih t1 g1 g2).1 d hd
    · intro t' ht'
      rw [List.foldlM_cons] at ht'
      cases hcs : copyStep oe ro t a with
      | error d0 =>
        rw [hcs] at ht'
        cases ht'
      | ok t1 =>
        rw [hcs] at ht'
        obtain ⟨g1, g2⟩ := hstep.2 t1 hcs
        exact (ih t1 g1 g2).2 t' ht'

/-- `create_event` preserves the unique-index invariant in the store it
persists, on success and on rollback alike. -/
lemma create_event_uniq (db : DB) (c : Nat) (o : String) (p : Payload)
    (hu : UniqueCalUid db) :
    UniqueCalUid (create_event db c o p).store := by
  unfold create_event
  simp only [generate_ical_uid]
  split
  · exact hu
  · rename_i db3 hins
    have h3 : UniqueCalUid db3 := insertEvent_uniq _ _ _ hins hu
    split
    · rename_i rolled_back hfold
      exact (copyFold_uniq _ _ p.attendees _ hu h3).1 rolled_back hfold
    · rename_i t hfold
      exact ((copyFold_uniq _ _ p.attendees _ hu h3).2 t hfold).2

/-- `update_event` preserves the unique-index invariant: the guarded
update loop never touches `calendar_id` or `iCalUID`. -/
lemma update_event_uniq (db : DB) (eid : Nat) (us : List FieldUpdate)
    (db' : DB) (h : update_event db eid us = .ok db')
    (hu : UniqueCalUid db) : UniqueCalUid db' := by
  unfold update_event at h
  split at h
  · cases h
  · rename_i oe hfind
    split at h
    · cases h
    · rename_i uid huid
      cases h
      have upd : ∀ e : Event,
          (if e.id == eid then applyUpdates e us
           else if e.iCalUID == some uid && e.id != eid then
             applyUpdates e us
           else e).calendar_id = e.calendar_id ∧
          (if e.id == eid then applyUpdates e us
           else if e.iCalUID == some uid && e.id != eid then
             applyUpdates e us
           else e).iCalUID = e.iCalUID := by
        intro e
        split
        · exact ⟨applyUpdates_calendar_id e us, applyUpdates_iCalUID e us⟩
        · split
          · exact ⟨applyUpdates_calendar_id e us,
              applyUpdates_iCalUID e us⟩
          · exact ⟨rfl, rfl⟩
      unfold UniqueCalUid at hu ⊢
      refine List.Pairwise.map _ ?_ hu
      intro a b hab hcon
      apply hab
      obtain ⟨hcal, u, hau, hbu⟩ := hcon
      refine ⟨?_, u, ?_, ?_⟩
      · rw [← (upd a).1, ← (upd b).1]
        exact hcal
      · rw [← (upd a).2]
        exact hau
      · rw [← (upd b).2]
        exact hbu

/-- `update_attendee_response` preserves the unique-index invariant: it
never writes an Event row. -/
lemma update_attendee_response_uniq (db : DB) (eid : Nat)
    (email : String) (s : AttendeeResponseStatus) (db' : DB)
    (h : update_attendee_response db eid email s = .ok db')
    (hu : UniqueCalUid db) : UniqueCalUid db' := by
  unfold update_attendee_response at h
  split at h
  · cases h
  · split at h
    · cases h
    · split at h
      · cases h
      · cases h
        exact hu

/-- C5: every store reachable from the empty store through
`create_event` (success or rollback), `update_event` and
`update_attendee_response` keeps `(calendar_id, iCalUID)` unique
across Event rows: no calendar holds two rows with the same non-null
iCalUID. -/
theorem reachable_unique_cal_uid (db : DB) (h : Reachable db) :
    UniqueCalUid db := by
  induction h with
  | init => exact List.Pairwise.nil
  | create_ok hr hc ih =>
    rename_i db0 db1 c0 o0 p0 e0
    have hq := create_event_uniq db0 c0 o0 p0 ih
    rw [hc] at hq
    exact hq
  | create_err hr hc ih =>
    rename_i db0 db1 c0 o0 p0
    have hq := create_event_uniq db0 c0 o0 p0 ih
    rw [hc] at hq
    exact hq
  | update_ok hr hc ih => exact update_event_uniq _ _ _ _ hc ih
  | respond_ok hr hc ih =>
    exact update_attendee_response_uniq _ _ _ _ _ hc ih

/-- Witness for C5: the store left by one successful `create_event` on
the empty store is reachable, and the invariant holds there. -/
theorem reachable_unique_cal_uid_witness :
    Reachable (create_event DB.empty 1 "o@x" payloadTwo).store ∧
    UniqueCalUid (create_event DB.empty 1 "o@x" payloadTwo).store :=
  have hr : Reachable (create_event DB.empty 1 "o@x" payloadTwo).store :=
    @Reachable.create_ok DB.empty
      (create_event DB.empty 1 "o@x" payloadTwo).store 1 "o@x"
      payloadTwo (create_event DB.empty 1 "o@x" payloadTwo).eventId
      Reachable.init (by rfl)
  ⟨hr, reachable_unique_cal_uid _ hr⟩

end CalendarGym
